import Mathlib

/-! # anira: scheduling and buffering core

Shallow embedding of `src/scheduler/AniraContext.cpp`, `src/scheduler/SessionElement.cpp`
and `src/scheduler/CustomInferenceManager.cpp`.

Conventions of the embedding
* C++ objects are records, methods are functions that return the updated records.
* `std::shared_ptr<SessionElement>` identity is the session id, which
  `get_available_session_id` makes unique; a slot inside a dispatch entry is its index
  in `m_inference_queue`.
* The atomics are read and written by one step of the calling thread; worker threads
  appear as separate steps of a transition system.
* The non-semaphore build is embedded (`USE_SEMAPHORE` undefined).
* Loops that the source does not bound carry a fuel argument.
-/

namespace anira

/-! ## Samples, tensors, ring buffer -/

/-- Audio samples. The scheduler only moves samples around and writes the literal `0.f`;
it performs no arithmetic on them, so integers stand for the `float` values. -/
abbrev Sample := Int

/-- An `AudioBufferF`: one list of samples per channel. -/
abbrev AudioBufferF := List (List Sample)

/-- Modelled from the spec: the `RingBuffer` class is not among the sources. Section 3 of the
spec gives it per-channel storage with read and write positions, the operations
`push_sample`, `pop_sample`, `available`, `clear_with_positions`,
`initialize_with_positions(num_channels, capacity_samples)` and the invariant
`available ≤ capacity`. A channel is represented by its unread samples, oldest first. -/
structure RingBuffer where
  m_capacity : Nat
  m_channels : List (List Sample)
deriving DecidableEq, Repr

namespace RingBuffer

/-- Modelled from the spec: `available(ch)`, the number of unread samples of a channel. -/
def get_available_samples (r : RingBuffer) (channel : Nat) : Nat :=
  (r.m_channels.getD channel []).length

/-- Modelled from the spec: `push_sample(ch, v)` appends one sample to the channel. The spec
fixes `available ≤ capacity` and nothing else for a full channel; here the channel keeps
its newest `m_capacity` samples. -/
def push_sample (r : RingBuffer) (channel : Nat) (v : Sample) : RingBuffer :=
  let ys := r.m_channels.getD channel [] ++ [v]
  { r with m_channels := r.m_channels.set channel (ys.drop (ys.length - r.m_capacity)) }

/-- Modelled from the spec: `pop_sample(ch) → v` removes and returns the oldest unread sample.
The spec says nothing about an empty channel; here it yields `0` and changes nothing. -/
def pop_sample (r : RingBuffer) (channel : Nat) : Sample × RingBuffer :=
  match r.m_channels.getD channel [] with
  | [] => (0, r)
  | x :: xs => (x, { r with m_channels := r.m_channels.set channel xs })

/-- Modelled from the spec: `clear_with_positions` empties every channel. -/
def clear_with_positions (r : RingBuffer) : RingBuffer :=
  { r with m_channels := r.m_channels.map (fun _ => []) }

/-- Modelled from the spec: `initialize_with_positions(num_channels, capacity_samples)`. -/
def initialize_with_positions (_r : RingBuffer) (num_channels num_samples : Nat) : RingBuffer :=
  { m_capacity := num_samples, m_channels := List.replicate num_channels [] }

end RingBuffer

/-- The unread samples of a channel, oldest first; empty for a channel the ring does not have. -/
def RingBuffer.channel (r : RingBuffer) (c : Nat) : List Sample := r.m_channels.getD c []

/-! ## Configuration records -/

/-- The values of `InferenceBackend` that the sources name, and `OTHER` for any other value
of the underlying integer type. -/
inductive InferenceBackend where
  | LIBTORCH
  | ONNX
  | TFLITE
  | NONE
  | OTHER (raw : Nat)
deriving DecidableEq, Repr

/-- A two-element array indexed by `Input` and `Output`. -/
structure InOut where
  Input : Nat
  Output : Nat
deriving DecidableEq, Repr

/-- The fields of `InferenceConfig` that the scheduler reads (all `size_t`). -/
structure InferenceConfig where
  m_input_sizes : List Nat
  m_output_sizes : List Nat
  m_index_audio_data : InOut
  m_num_audio_channels : InOut
  m_num_parallel_processors : Nat
deriving DecidableEq, Repr

/-- The host callback `submit_task_to_host_thread`. It is host code with its own state; it is
represented by the answers it gives to its next invocations (it accepts once the list is used
up) and by the number of invocations so far. -/
structure HostCallback where
  m_answers : List Bool
  m_calls : Nat
deriving DecidableEq, Repr

/-- One invocation of the host callback. -/
def HostCallback.invoke (cb : HostCallback) : Bool × HostCallback :=
  match cb.m_answers with
  | [] => (true, { cb with m_calls := cb.m_calls + 1 })
  | a :: rest => (a, { m_answers := rest, m_calls := cb.m_calls + 1 })

/-- `HostAudioConfig`. `m_host_sample_rate` is the value of `(size_t) m_host_sample_rate`,
the only way the scheduler reads the rate. -/
structure HostAudioConfig where
  m_host_buffer_size : Nat
  m_host_sample_rate : Nat
  submit_task_to_host_thread : Option HostCallback
deriving DecidableEq, Repr

/-! ## Session -/

/-- `SessionElement::ThreadSafeStruct`, one inference slot. -/
structure ThreadSafeStruct where
  m_free : Bool
  m_done : Bool
  m_time_stamp : Nat
  m_processed_model_input : AudioBufferF
  m_raw_model_output : AudioBufferF
deriving DecidableEq, Repr

/-- `SessionElement`. The pre/post-processor reference `m_pp_processor` is passed to the
functions that use it; the per-backend processor handles are not read by the scheduler
paths embedded here. -/
structure SessionElement where
  m_session_id : Int
  m_inference_config : InferenceConfig
  m_host_config : HostAudioConfig
  m_send_buffer : RingBuffer
  m_receive_buffer : RingBuffer
  m_inference_queue : List ThreadSafeStruct
  m_time_stamps : List Nat
  m_current_queue : Nat
  m_currentBackend : InferenceBackend
  m_initialized : Bool
  m_active_inferences : Nat
deriving DecidableEq, Repr

/-- The `PrePostProcessor` interface, supplied by the caller. `pre_process` reads the send ring
and fills the model input; `none` stands for a thrown exception. `post_process` writes the
model output to the receive ring. -/
structure PrePostProcessor where
  pre_process : RingBuffer → AudioBufferF → InferenceBackend → Option (RingBuffer × AudioBufferF)
  post_process : AudioBufferF → RingBuffer → InferenceBackend → RingBuffer

/-! ## Dispatch queue, workers, context -/

/-- `InferenceData`: a session (by id) and one of its slots (by index). -/
structure InferenceData where
  m_session : Int
  m_thread_safe_struct : Nat
deriving DecidableEq, Repr

/-- Modelled from the spec: the dispatch queue `m_next_inference` is a third-party
`ConcurrentQueue` whose declaration is not among the sources. Section 2 of the spec calls it
a bounded queue carrying (session, slot) pairs; entries leave in the order they entered. -/
structure ConcurrentQueue where
  m_capacity : Nat
  m_items : List InferenceData
deriving DecidableEq, Repr

namespace ConcurrentQueue

/-- Modelled from the spec: bounded `try_enqueue`, refused when the queue is full. -/
def try_enqueue (q : ConcurrentQueue) (d : InferenceData) : Bool × ConcurrentQueue :=
  if q.m_items.length < q.m_capacity then (true, { q with m_items := q.m_items ++ [d] })
  else (false, q)

/-- Modelled from the spec: `try_dequeue` takes the oldest entry, if there is one. -/
def try_dequeue (q : ConcurrentQueue) : Option (InferenceData × ConcurrentQueue) :=
  match q.m_items with
  | [] => none
  | d :: rest => some (d, { q with m_items := rest })

end ConcurrentQueue

/-- Modelled from the spec: `InferenceThread` is not among the sources. The context only uses
`start`, `stop` and `is_running`; section 4.3 of the spec makes stop cooperative and has the
worker report `is_running()`. -/
structure InferenceThread where
  m_running : Bool
deriving DecidableEq, Repr

/-- Modelled from the spec: `start()`; the caller then waits until `is_running()`. -/
def InferenceThread.start (_t : InferenceThread) : InferenceThread := { m_running := true }

/-- Modelled from the spec: `stop()`; the caller then waits until `is_running()` is false. -/
def InferenceThread.stop (_t : InferenceThread) : InferenceThread := { m_running := false }

/-- `SynchronizationType` of the context configuration. -/
inductive SynchronizationType where
  | SEMAPHORE
  | ATOMIC
deriving DecidableEq, Repr

/-- `AniraContextConfig`; section 6 of the spec makes `num_threads` an integer `≥ 0`. -/
structure AniraContextConfig where
  m_anira_version : String
  m_enabled_backends : List InferenceBackend
  m_synchronization_type : SynchronizationType
  m_num_threads : Nat
  m_use_host_threads : Bool
deriving DecidableEq, Repr

/-- `AniraContext`. `m_sessions` holds the session pointers, that is the session ids. The
per-backend processor vectors are only touched under the `USE_*` backend switches and are
read by none of the scheduling paths. -/
structure AniraContext where
  m_context_config : AniraContextConfig
  m_thread_pool : List InferenceThread
  m_next_inference : ConcurrentQueue
  m_sessions : List Int
  m_next_id : Int
  m_active_sessions : Int
  m_host_threads_active : Bool
deriving DecidableEq, Repr

/-! ## Loop helpers -/

/-- The first element (with its index) that satisfies `p`, scanning in index order as the
`for (size_t i = 0; i < size; ++i)` loops of the source do. -/
def scan {α : Type} (p : α → Bool) : List α → Option (Nat × α)
  | [] => none
  | x :: xs => if p x then some (0, x) else (scan p xs).map (fun r => (r.1 + 1, r.2))

/-- Replace element `i` of a list by `f` of it. -/
def modify_at {α : Type} (f : α → α) : Nat → List α → List α
  | _, [] => []
  | 0, x :: xs => f x :: xs
  | n + 1, x :: xs => x :: modify_at f n xs

/-- Conversion of a `size_t` value to `int`. -/
def to_int (n : Nat) : Int :=
  if n % 2 ^ 32 < 2 ^ 31 then ((n % 2 ^ 32 : Nat) : Int) else ((n % 2 ^ 32 : Nat) : Int) - 2 ^ 32

/-- Conversion of an `int` to `size_t`, as in a comparison of an `int` with a `size_t`. -/
def to_size_t (z : Int) : Nat := (z % 2 ^ 64).toNat

/-- The `int` that holds the arithmetic result `z`: the two's-complement wrap to 32 bits, as
`std::atomic<int>::fetch_add` and `fetch_sub` store it (they do not overflow, they wrap). -/
def wrap_int (z : Int) : Int := (z + 2 ^ 31) % 2 ^ 32 - 2 ^ 31

/-! ## AniraContext: submit path -/

/-- What `AniraContext::pre_process` leaves behind: the value it returned (`none` when the
pre/post-processor threw and the exception left the function), the dispatch queue and the
session. -/
structure PreProcessResult where
  returned : Option Bool
  m_next_inference : ConcurrentQueue
  session : SessionElement
deriving DecidableEq, Repr

/-- `AniraContext::pre_process` (AniraContext.cpp 271-302). -/
def pre_process (pp : PrePostProcessor) (m_next_inference : ConcurrentQueue)
    (session : SessionElement) : PreProcessResult :=
  match scan (fun slot => slot.m_free) session.m_inference_queue with
  | none => { returned := some false, m_next_inference := m_next_inference, session := session }
  | some (i, slot) =>
    -- m_free.exchange(false)
    let claimed := { session with
      m_inference_queue := modify_at (fun t => { t with m_free := false }) i session.m_inference_queue }
    match pp.pre_process session.m_send_buffer slot.m_processed_model_input session.m_currentBackend with
    | none => { returned := none, m_next_inference := m_next_inference, session := claimed }
    | some (ring, input) =>
      let stamped := { claimed with
        m_send_buffer := ring
        m_time_stamps := session.m_current_queue :: session.m_time_stamps
        m_inference_queue := modify_at
          (fun t => { t with m_processed_model_input := input, m_time_stamp := session.m_current_queue })
          i claimed.m_inference_queue }
      let inference_data : InferenceData :=
        { m_session := session.m_session_id, m_thread_safe_struct := i }
      match m_next_inference.try_enqueue inference_data with
      | (false, q) =>
        { returned := some false
          m_next_inference := q
          session := { stamped with
            m_inference_queue := modify_at (fun t => { t with m_free := true }) i stamped.m_inference_queue
            m_time_stamps := stamped.m_time_stamps.dropLast } }
      | (true, q) =>
        { returned := some true
          m_next_inference := q
          session := { stamped with
            m_current_queue :=
              if session.m_current_queue ≥ 65535 then 0 else session.m_current_queue + 1 } }

/-- `AniraContext::start_thread_pool` (AniraContext.cpp 313-324). The method reads the
configuration through the static `m_anira_context`, which is the context it runs on. -/
def start_thread_pool (ctx : AniraContext) : AniraContext :=
  if !ctx.m_context_config.m_use_host_threads then
    { ctx with
      m_thread_pool := ctx.m_thread_pool.map (fun t => if !t.m_running then t.start else t) }
  else ctx

/-- The `int new_samples_needed_for_inference` of `new_data_submitted`. -/
def new_samples_needed_for_inference (session : SessionElement) : Int :=
  to_int (session.m_inference_config.m_output_sizes.getD
      session.m_inference_config.m_index_audio_data.Output 0
    / session.m_inference_config.m_num_audio_channels.Output)

/-- The loop `for (i < n) ring.pop_sample(channel)` for every `channel < num_channels`. -/
def pop_samples (r : RingBuffer) (num_channels n : Nat) : RingBuffer :=
  (List.range num_channels).foldl (fun r channel => (fun r => (r.pop_sample channel).2)^[n] r) r

/-- The loop `for (i < n) ring.push_sample(channel, 0.f)` for every `channel < num_channels`. -/
def push_zeros (r : RingBuffer) (num_channels n : Nat) : RingBuffer :=
  (List.range num_channels).foldl (fun r channel => (fun r => r.push_sample channel 0)^[n] r) r

/-- Result of a call that may end by returning, by an exception leaving it, or not at all
within the given fuel. -/
inductive Outcome (σ : Type) where
  | returned (s : σ)
  | threw (s : σ)
  | out_of_fuel
deriving DecidableEq, Repr

/-- One iteration of the `while` loop of `AniraContext::new_data_submitted`
(AniraContext.cpp 203-228); `Outcome.threw` when the pre/post-processor threw. -/
def new_data_submitted_body (pp : PrePostProcessor) (ctx : AniraContext)
    (session : SessionElement) : Outcome (AniraContext × SessionElement) :=
  let hop := to_size_t (new_samples_needed_for_inference session)
  let r := pre_process pp ctx.m_next_inference session
  let ctx1 := { ctx with m_next_inference := r.m_next_inference }
  match r.returned with
  | none => Outcome.threw (ctx1, r.session)
  | some true =>
    match r.session.m_host_config.submit_task_to_host_thread with
    | some cb =>
      if ctx1.m_host_threads_active then
        let (host_exec_success, cb1) := cb.invoke
        let session1 := { r.session with
          m_host_config := { r.session.m_host_config with submit_task_to_host_thread := some cb1 } }
        if !host_exec_success then
          Outcome.returned (start_thread_pool { ctx1 with m_host_threads_active := false }, session1)
        else Outcome.returned (ctx1, session1)
      else Outcome.returned (ctx1, r.session)
    | none => Outcome.returned (ctx1, r.session)
  | some false =>
    Outcome.returned (ctx1, { r.session with
      m_send_buffer := pop_samples r.session.m_send_buffer
        r.session.m_inference_config.m_num_audio_channels.Input hop
      m_receive_buffer := push_zeros r.session.m_receive_buffer
        r.session.m_inference_config.m_num_audio_channels.Output hop })

/-- `AniraContext::new_data_submitted` (AniraContext.cpp 199-230). -/
def new_data_submitted (pp : PrePostProcessor) :
    Nat → AniraContext → SessionElement → Outcome (AniraContext × SessionElement)
  | 0, _, _ => Outcome.out_of_fuel
  | fuel + 1, ctx, session =>
    if session.m_send_buffer.get_available_samples 0
        ≥ to_size_t (new_samples_needed_for_inference session) then
      match new_data_submitted_body pp ctx session with
      | Outcome.returned (ctx1, session1) => new_data_submitted pp fuel ctx1 session1
      | other => other
    else Outcome.returned (ctx, session)

/-! ## AniraContext: request path -/

/-- `AniraContext::post_process` (AniraContext.cpp 304-311) on slot `i` of the session. -/
def post_process (pp : PrePostProcessor) (session : SessionElement) (i : Nat)
    (thread_safe_struct : ThreadSafeStruct) : SessionElement :=
  { session with
    m_receive_buffer := pp.post_process thread_safe_struct.m_raw_model_output
      session.m_receive_buffer session.m_currentBackend
    m_inference_queue := modify_at (fun t => { t with m_free := true }) i session.m_inference_queue }

/-- How one iteration of the `while` loop of `new_data_request` ends: a slot was handed to
`post_process`, the slot of the oldest time stamp was not done (`return`), or the `for` loop
found no slot with that time stamp. -/
inductive RequestStep where
  | posted
  | not_done
  | no_slot
deriving DecidableEq, Repr

/-- One iteration of the `while` loop of `AniraContext::new_data_request`
(AniraContext.cpp 239-253), `back` being `m_time_stamps.back()`. -/
def new_data_request_body (pp : PrePostProcessor) (session : SessionElement) (back : Nat) :
    RequestStep × SessionElement :=
  match scan (fun slot => slot.m_time_stamp == back) session.m_inference_queue with
  | none => (RequestStep.no_slot, session)
  | some (i, slot) =>
    -- m_done.exchange(false)
    if slot.m_done then
      let popped := { session with
        m_inference_queue := modify_at (fun t => { t with m_done := false }) i session.m_inference_queue
        m_time_stamps := session.m_time_stamps.dropLast }
      (RequestStep.posted, post_process pp popped i { slot with m_done := false })
    else (RequestStep.not_done, session)

/-- `AniraContext::new_data_request` (AniraContext.cpp 232-255). Returns the time stamps of the
slots handed to `post_process`, in call order, and the session; `none` when the fuel does not
suffice. -/
def new_data_request (pp : PrePostProcessor) : Nat → SessionElement → Option (List Nat × SessionElement)
  | 0, _ => none
  | fuel + 1, session =>
    match session.m_time_stamps.getLast? with
    | none => some ([], session)
    | some back =>
      match new_data_request_body pp session back with
      | (RequestStep.posted, s1) => (new_data_request pp fuel s1).map (fun r => (back :: r.1, r.2))
      | (RequestStep.not_done, s1) => some ([], s1)
      | (RequestStep.no_slot, s1) => new_data_request pp fuel s1

/-! ## SessionElement -/

/-- `SessionElement::ThreadSafeStruct::ThreadSafeStruct` (SessionElement.cpp 14-17). The member
initialisers are in the header, which is not among the sources; by section 3 of the spec a slot
starts free and not done. -/
def ThreadSafeStruct.create (num_input_samples num_output_samples num_input_channels
    num_output_channels : Nat) : ThreadSafeStruct :=
  { m_free := true, m_done := false, m_time_stamp := 0,
    m_processed_model_input := List.replicate num_input_channels (List.replicate num_input_samples 0),
    m_raw_model_output := List.replicate num_output_channels (List.replicate num_output_samples 0) }

/-- `SessionElement::clear` (SessionElement.cpp 19-24). -/
def SessionElement.clear (s : SessionElement) : SessionElement :=
  { s with
    m_send_buffer := s.m_send_buffer.clear_with_positions
    m_receive_buffer := s.m_receive_buffer.clear_with_positions
    m_time_stamps := []
    m_inference_queue := [] }

/-- `SessionElement::prepare` (SessionElement.cpp 26-52). -/
def SessionElement.prepare (s : SessionElement) (new_config : HostAudioConfig) : SessionElement :=
  let maxSecs := 20
  let maxStructs := 20
  let cfg := s.m_inference_config
  let num_input_samples := cfg.m_input_sizes.getD cfg.m_index_audio_data.Input 0 / cfg.m_num_audio_channels.Input
  let num_output_samples := cfg.m_output_sizes.getD cfg.m_index_audio_data.Output 0 / cfg.m_num_audio_channels.Output
  { s with
    m_host_config := new_config
    m_send_buffer := s.m_send_buffer.initialize_with_positions cfg.m_num_audio_channels.Input
      (new_config.m_host_sample_rate * maxSecs % 2 ^ 64)
    m_receive_buffer := s.m_receive_buffer.initialize_with_positions cfg.m_num_audio_channels.Output
      (new_config.m_host_sample_rate * maxSecs % 2 ^ 64)
    m_inference_queue := s.m_inference_queue ++ List.replicate maxStructs
      (ThreadSafeStruct.create num_input_samples num_output_samples
        cfg.m_num_audio_channels.Input cfg.m_num_audio_channels.Output) }

/-! ## Runs of one session -/

/-- What happens to a session: the audio thread submits (`pre_process`) or requests
(`new_data_request`, with the fuel of the call); a worker takes the oldest dispatch entry, or
completes slot `slot`, writing `output` and setting `m_done`. -/
inductive Event where
  | submit
  | worker_take
  | worker_done (slot : Nat) (output : AudioBufferF)
  | request (fuel : Nat)
deriving DecidableEq, Repr

/-- A session with the dispatch queue, the time stamps assigned by the successful submits and
the time stamps handed to `post_process`, both oldest first. -/
structure Trace where
  session : SessionElement
  m_next_inference : ConcurrentQueue
  submitted : List Nat
  emitted : List Nat
deriving DecidableEq, Repr

/-- Modelled from the spec: the worker loop (`InferenceThread`) is not among the sources. By
section 4.3 of the spec a worker writes the output tensor of a slot it took from the dispatch
queue and then marks the slot done. -/
def worker_done (session : SessionElement) (slot : Nat) (output : AudioBufferF) : SessionElement :=
  { session with
    m_inference_queue := modify_at (fun t => { t with m_raw_model_output := output, m_done := true })
      slot session.m_inference_queue }

/-- One event of a run; `none` when the event cannot happen (a completion of a slot that is
not claimed, a take from an empty queue) or a request does not return within its fuel. -/
def Trace.step (pp : PrePostProcessor) (t : Trace) : Event → Option Trace
  | Event.submit =>
    let r := pre_process pp t.m_next_inference t.session
    some { t with
      session := r.session
      m_next_inference := r.m_next_inference
      submitted := if r.returned = some true then t.submitted ++ [t.session.m_current_queue]
                   else t.submitted }
  | Event.worker_take =>
    (t.m_next_inference.try_dequeue).map (fun r => { t with m_next_inference := r.2 })
  | Event.worker_done slot output =>
    match t.session.m_inference_queue[slot]? with
    | some s => if s.m_free then none else some { t with session := worker_done t.session slot output }
    | none => none
  | Event.request fuel =>
    (new_data_request pp fuel t.session).map
      (fun r => { t with session := r.2, emitted := t.emitted ++ r.1 })

/-- A run: the events one after the other. -/
def Trace.run (pp : PrePostProcessor) : Trace → List Event → Option Trace
  | t, [] => some t
  | t, e :: es => (t.step pp e).bind (fun t1 => Trace.run pp t1 es)

/-- Modelled from the spec: the `PrePostProcessor` base class is not among the sources. By
section 4.4 of the spec `pre_process` moves one hop of samples of every channel from the send
ring to the model input and advances the ring by that hop, and `post_process` writes the
samples of the model output to the receive ring. -/
def hop_processor (num_channels hop : Nat) : PrePostProcessor where
  pre_process := fun ring _ _ =>
    some (pop_samples ring num_channels hop,
      (List.range num_channels).map (fun channel => (ring.m_channels.getD channel []).take hop))
  post_process := fun output ring _ =>
    (List.range output.length).foldl
      (fun r channel => (output.getD channel []).foldl (fun r v => r.push_sample channel v) r) ring

/-! ## AniraContext: instance, sessions -/

/-- The constructor `AniraContext::AniraContext` (AniraContext.cpp 5-10): one worker, not yet
started, per configured thread. The member initialisers are in the header, which is not among
the sources; the counters start at 0, the host threads are not active, and the capacity of
the dispatch queue is the parameter `queue_capacity`. -/
def AniraContext.create (queue_capacity : Nat) (context_config : AniraContextConfig) :
    AniraContext :=
  { m_context_config := context_config,
    m_thread_pool := List.replicate context_config.m_num_threads { m_running := false },
    m_next_inference := { m_capacity := queue_capacity, m_items := [] },
    m_sessions := [], m_next_id := 0, m_active_sessions := 0, m_host_threads_active := false }

/-- `AniraContext::new_num_threads` (AniraContext.cpp 50-66). A worker that is stopped is
popped right away, so only its removal shows. For a negative argument the source indexes the
pool out of range; here the pool ends empty. -/
def new_num_threads (ctx : AniraContext) (new_num_threads : Int) : AniraContext :=
  let current_num_threads := to_int ctx.m_thread_pool.length
  if new_num_threads > current_num_threads then
    let added := List.replicate (new_num_threads - current_num_threads).toNat
      ({ m_running := false } : InferenceThread)
    { ctx with m_thread_pool := ctx.m_thread_pool ++ added }
  else if new_num_threads < current_num_threads then
    let popped := (current_num_threads - new_num_threads).toNat
    { ctx with m_thread_pool := List.dropLast^[popped] ctx.m_thread_pool }
  else ctx

/-- What `AniraContext::get_instance` leaves behind: the static `m_anira_context`, which is
also the pointer it returns, and the lines written to `std::cerr`. -/
structure GetInstanceResult where
  m_anira_context : AniraContext
  errors : List String
deriving DecidableEq, Repr

/-- `AniraContext::get_instance` (AniraContext.cpp 14-38); the argument `m_anira_context` is
the static pointer before the call, `none` for `nullptr`. -/
def get_instance (queue_capacity : Nat) (m_anira_context : Option AniraContext)
    (context_config : AniraContextConfig) : GetInstanceResult :=
  match m_anira_context with
  | none => { m_anira_context := AniraContext.create queue_capacity context_config, errors := [] }
  | some ctx =>
    let e1 := if ctx.m_context_config.m_anira_version ≠ context_config.m_anira_version then
      ["[ERROR] AniraContext already initialized with different version!"] else []
    let e2 := if ctx.m_context_config.m_enabled_backends ≠ context_config.m_enabled_backends then
      ["[ERROR] AniraContext already initialized with different backends enabled!"] else []
    let e3 :=
      if ctx.m_context_config.m_synchronization_type ≠ context_config.m_synchronization_type then
        ["[ERROR] AniraContext already initialized with different synchronization type!"] else []
    let ctx1 :=
      if ctx.m_thread_pool.length > context_config.m_num_threads then
        let resized := new_num_threads ctx (to_int context_config.m_num_threads)
        { resized with m_context_config :=
            { resized.m_context_config with m_num_threads := context_config.m_num_threads } }
      else ctx
    let ctx2 :=
      if !context_config.m_use_host_threads && ctx1.m_context_config.m_use_host_threads then
        { ctx1 with m_context_config := { ctx1.m_context_config with m_use_host_threads := false } }
      else ctx1
    { m_anira_context := ctx2, errors := e1 ++ e2 ++ e3 }

/-- `AniraContext::get_available_session_id` (AniraContext.cpp 44-48). -/
def get_available_session_id (ctx : AniraContext) : Int × AniraContext :=
  (ctx.m_next_id + 1,
    { ctx with m_next_id := ctx.m_next_id + 1, m_active_sessions := ctx.m_active_sessions + 1 })

/-- The constructor `SessionElement::SessionElement` (SessionElement.cpp 5-12). The member
initialisers are in the header, which is not among the sources: the rings and the slot pool
start empty, the counters at 0. -/
def SessionElement.create (newSessionID : Int) (inference_config : InferenceConfig) :
    SessionElement :=
  { m_session_id := newSessionID, m_inference_config := inference_config,
    m_host_config := { m_host_buffer_size := 0, m_host_sample_rate := 0,
                       submit_task_to_host_thread := none },
    m_send_buffer := { m_capacity := 0, m_channels := [] },
    m_receive_buffer := { m_capacity := 0, m_channels := [] },
    m_inference_queue := [], m_time_stamps := [], m_current_queue := 0,
    m_currentBackend := InferenceBackend.NONE, m_initialized := false, m_active_inferences := 0 }

/-- `AniraContext::create_session` (AniraContext.cpp 68-97), without the per-backend
processors. Returns the context and the new session. -/
def create_session (ctx : AniraContext) (inference_config : InferenceConfig) :
    AniraContext × SessionElement :=
  let (session_id, ctx1) := get_available_session_id ctx
  let inference_config1 :=
    if inference_config.m_num_parallel_processors > ctx1.m_thread_pool.length then
      { inference_config with m_num_parallel_processors := ctx1.m_thread_pool.length }
    else inference_config
  let session := SessionElement.create session_id inference_config1
  ({ ctx1 with m_sessions := ctx1.m_sessions ++ [session_id] }, { session with m_initialized := true })

/-- `AniraContext::release_thread_pool` (AniraContext.cpp 99-101). -/
def release_thread_pool (ctx : AniraContext) : AniraContext := { ctx with m_thread_pool := [] }

/-- The loop `while (m_next_inference.try_dequeue(inference_data))` of `release_session` and
`prepare`: entries of other sessions go to `inference_stack`. `none` when the fuel does not
suffice. -/
def dequeue_all (session_id : Int) :
    Nat → ConcurrentQueue → List InferenceData → Option (ConcurrentQueue × List InferenceData)
  | 0, _, _ => none
  | fuel + 1, q, inference_stack =>
    match q.try_dequeue with
    | none => some (q, inference_stack)
    | some (inference_data, q1) =>
      dequeue_all session_id fuel q1
        (if inference_data.m_session ≠ session_id then inference_stack ++ [inference_data]
         else inference_stack)

/-- The loop `for (auto& inference_data : inference_stack)` that requeues the entries; a
refused entry is reported and lost. -/
def requeue (q : ConcurrentQueue) (inference_stack : List InferenceData) : ConcurrentQueue :=
  inference_stack.foldl (fun q inference_data => (q.try_enqueue inference_data).2) q

/-- The context together with the static `m_anira_context`: `m_anira_context` is true while
the static points to the context and false once it is null. -/
structure Singleton where
  context : AniraContext
  m_anira_context : Bool
deriving DecidableEq, Repr

/-- `AniraContext::release_instance` (AniraContext.cpp 40-42): `m_anira_context.reset()`. -/
def release_instance (g : Singleton) : Singleton := { g with m_anira_context := false }

/-- `AniraContext::release_session` (AniraContext.cpp 103-158), without the per-backend
processors: the context with the static, and the session. `none` when the call does not
return: the wait for `m_active_inferences == 0` is a wait for the workers, which do not run
during the call. -/
def release_session (g : Singleton) (session : SessionElement) :
    Option (Singleton × SessionElement) :=
  let session1 := { session with m_initialized := false }
  if session1.m_active_inferences ≠ 0 then none
  else
    match dequeue_all session.m_session_id (g.context.m_next_inference.m_items.length + 1)
        g.context.m_next_inference [] with
    | none => none
    | some (q, inference_stack) =>
      let ctx1 := { g.context with
        m_next_inference := requeue q inference_stack
        m_sessions := g.context.m_sessions.erase session.m_session_id
        m_active_sessions := g.context.m_active_sessions - 1 }
      if ctx1.m_active_sessions = 0 then
        some (release_instance { g with context := release_thread_pool ctx1 }, session1)
      else some ({ g with context := ctx1 }, session1)

/-! ## Session life cycle -/

/-- A call on the context: `create_session` with a configuration, or `release_session` of the
session with the given id. -/
inductive LifecycleOp where
  | create (inference_config : InferenceConfig)
  | release (session_id : Int)
deriving DecidableEq, Repr

/-- The context with its static and the sessions that were created and not yet released. -/
structure Lifecycle where
  singleton : Singleton
  sessions : List SessionElement
deriving DecidableEq, Repr

/-- A freshly created context, as `get_instance` makes it when the static is null. -/
def Lifecycle.fresh (queue_capacity : Nat) (context_config : AniraContextConfig) : Lifecycle :=
  { singleton := { context := (get_instance queue_capacity none context_config).m_anira_context,
                   m_anira_context := true },
    sessions := [] }

/-- One call. A release of a session that is not outstanding is not part of a life cycle
(`none`), and a release that does not return has no successor either. -/
def Lifecycle.step (l : Lifecycle) : LifecycleOp → Option Lifecycle
  | LifecycleOp.create inference_config =>
    let r := create_session l.singleton.context inference_config
    some { singleton := { l.singleton with context := r.1 }, sessions := l.sessions ++ [r.2] }
  | LifecycleOp.release session_id =>
    match l.sessions.find? (fun s => s.m_session_id == session_id) with
    | none => none
    | some session =>
      (release_session l.singleton session).map
        (fun r => { singleton := r.1, sessions := l.sessions.erase session })

/-- The calls one after the other. -/
def Lifecycle.run : Lifecycle → List LifecycleOp → Option Lifecycle
  | l, [] => some l
  | l, op :: ops => (l.step op).bind (fun l1 => Lifecycle.run l1 ops)

/-- The sessions on record are as many as `m_active_sessions` counts, and none of them has an
inference in progress. -/
def Lifecycle.consistent (l : Lifecycle) : Prop :=
  l.singleton.context.m_active_sessions = (l.sessions.length : Int) ∧
  ∀ s ∈ l.sessions, s.m_active_inferences = 0

/-! ## InferenceManager -/

/-- `InferenceManager` (CustomInferenceManager.h): the fields the realtime path uses.
`m_inference_counter` is a `std::atomic<int>`: its values lie in `[-2 ^ 31, 2 ^ 31)`, and what
`process_output` stores in it is wrapped to that range. -/
structure InferenceManager where
  m_context : AniraContext
  m_inference_config : InferenceConfig
  m_session : SessionElement
  m_inference_counter : Int
  nonRealtimeMode : Bool
deriving DecidableEq, Repr

/-- The loop `for (sample < num_samples) output_data[channel][sample] = ring.pop_sample(channel)`
for one channel: the samples read, in order, and the ring. -/
def pop_block (r : RingBuffer) (channel : Nat) : Nat → List Sample × RingBuffer
  | 0 => ([], r)
  | n + 1 =>
    let (v, r1) := r.pop_sample channel
    let (rest, r2) := pop_block r1 channel n
    (v :: rest, r2)

/-- The same loop for every `channel < num_channels`: the output block and the ring. -/
def pop_blocks (r : RingBuffer) (num_samples : Nat) : Nat → AudioBufferF × RingBuffer
  | 0 => ([], r)
  | num_channels + 1 =>
    let (block, r1) := pop_blocks r num_samples num_channels
    let (samples, r2) := pop_block r1 num_channels num_samples
    (block ++ [samples], r2)

/-- `InferenceManager::clear_data` (CustomInferenceManager.cpp 138-144): the block written. -/
def clear_data (num_samples num_channels : Nat) : AudioBufferF :=
  List.replicate num_channels (List.replicate num_samples 0)

/-- The catch-up loop `while (m_inference_counter.load() > 0)` of `process_output`
(CustomInferenceManager.cpp 110-123). Every iteration that does not `break` lowers the
counter by one, so the fuel `m_inference_counter.toNat` lets the loop run to its end.
`fetch_sub(1)` runs only on a positive counter, where the `int` subtraction does not wrap
(`wrap_int_pred`), so it is `counter - 1`. -/
def catch_up (num_channels num_samples : Nat) : Nat → Int × RingBuffer → Int × RingBuffer
  | 0, st => st
  | fuel + 1, (counter, ring) =>
    if counter > 0 then
      if ring.get_available_samples 0 ≥ 2 * num_samples % 2 ^ 64 then
        catch_up num_channels num_samples fuel (counter - 1, pop_samples ring num_channels num_samples)
      else (counter, ring)
    else (counter, ring)

/-- `InferenceManager::process_output` (CustomInferenceManager.cpp 109-136): the block written
to `output_data` (`num_samples` samples for each output channel) and the manager. The
`fetch_add(1)` of the shortage branch wraps `INT_MAX` to `INT_MIN`. -/
def process_output (m : InferenceManager) (num_samples : Nat) : AudioBufferF × InferenceManager :=
  let num_channels := m.m_inference_config.m_num_audio_channels.Output
  let (counter, ring) := catch_up num_channels num_samples m.m_inference_counter.toNat
    (m.m_inference_counter, m.m_session.m_receive_buffer)
  if ring.get_available_samples 0 ≥ num_samples then
    let (output_data, ring1) := pop_blocks ring num_samples num_channels
    (output_data, { m with
      m_inference_counter := counter
      m_session := { m.m_session with m_receive_buffer := ring1 } })
  else
    (clear_data num_samples num_channels, { m with
      m_inference_counter := wrap_int (counter + 1)
      m_session := { m.m_session with m_receive_buffer := ring } })

/-! ## AniraContext: prepare -/

/-- `AniraContext::prepare` (AniraContext.cpp 160-197): the context and the session. `none`
when the call does not return (the wait for `m_active_inferences == 0` is a wait for the
workers, which do not run during the call). -/
def AniraContext.prepare (ctx : AniraContext) (session : SessionElement)
    (new_config : HostAudioConfig) : Option (AniraContext × SessionElement) :=
  let session1 := { session with m_initialized := false }
  if session1.m_active_inferences ≠ 0 then none
  else
    match dequeue_all session.m_session_id (ctx.m_next_inference.m_items.length + 1)
        ctx.m_next_inference [] with
    | none => none
    | some (q, inference_stack) =>
      let ctx1 := { ctx with m_next_inference := requeue q inference_stack }
      let session2 := session1.clear.prepare new_config
      let ctx2 :=
        if new_config.submit_task_to_host_thread.isNone then
          { ctx1 with m_context_config := { ctx1.m_context_config with m_use_host_threads := false } }
        else ctx1
      let ctx3 := start_thread_pool ctx2
      let session3 := { session2 with m_initialized := true }
      some ({ ctx3 with m_host_threads_active := ctx3.m_context_config.m_use_host_threads },
        session3)

/-! ## InferenceManager: submit and request -/

/-- A `juce::AudioBuffer<float>` (third-party): `numChannels` channels of `numSamples`
samples each; `getSample` reads one of them. -/
structure JuceAudioBuffer where
  numChannels : Nat
  numSamples : Nat
  data : List (List Sample)
deriving DecidableEq, Repr

/-- `juce::AudioBuffer<float>::getSample(channel, sample)`. -/
def JuceAudioBuffer.getSample (buffer : JuceAudioBuffer) (channel sample : Nat) : Sample :=
  (buffer.data.getD channel []).getD sample 0

/-- `InferenceManager::process_input` (CustomInferenceManager.cpp 101-107). -/
def process_input (m : InferenceManager) (buffer : JuceAudioBuffer) : InferenceManager :=
  { m with m_session := { m.m_session with
      m_send_buffer := (List.range buffer.numSamples).foldl
        (fun r sample => (List.range buffer.numChannels).foldl
          (fun r channel => r.push_sample 0 (buffer.getSample channel sample)) r)
        m.m_session.m_send_buffer } }

/-- `InferenceManager::process_submit` (CustomInferenceManager.cpp 83-90). The offline branch
runs the backend processor, which is outside the scheduler; it is the parameter
`processesNonRealtimeSubmit`. -/
def process_submit (pp : PrePostProcessor)
    (processesNonRealtimeSubmit : InferenceManager → JuceAudioBuffer → InferenceManager)
    (fuel : Nat) (m : InferenceManager) (input_data : JuceAudioBuffer) :
    Outcome InferenceManager :=
  if m.nonRealtimeMode then Outcome.returned (processesNonRealtimeSubmit m input_data)
  else
    let m1 := process_input m input_data
    match new_data_submitted pp fuel m1.m_context m1.m_session with
    | Outcome.returned (ctx, session) =>
      Outcome.returned { m1 with m_context := ctx, m_session := session }
    | Outcome.threw (ctx, session) =>
      Outcome.threw { m1 with m_context := ctx, m_session := session }
    | Outcome.out_of_fuel => Outcome.out_of_fuel

/-- `InferenceManager::processesNonRealtimeRequest` (CustomInferenceManager.cpp 56-62); the
constant `modelOutputFullSize` is declared outside the sources and is a parameter. -/
def processesNonRealtimeRequest (m : InferenceManager) (modelOutputFullSize : Nat) :
    AudioBufferF × InferenceManager :=
  let r := pop_blocks m.m_session.m_receive_buffer modelOutputFullSize
    m.m_inference_config.m_num_audio_channels.Output
  (r.1, { m with m_session := { m.m_session with m_receive_buffer := r.2 } })

/-- `InferenceManager::process_request` (CustomInferenceManager.cpp 92-99): the output block
and the manager; `none` when `new_data_request` does not return within the fuel. -/
def process_request (pp : PrePostProcessor) (modelOutputFullSize fuel : Nat)
    (m : InferenceManager) : Option (AudioBufferF × InferenceManager) :=
  if m.nonRealtimeMode then some (processesNonRealtimeRequest m modelOutputFullSize)
  else
    match new_data_request pp fuel m.m_session with
    | none => none
    | some (_, session) => some (process_output { m with m_session := session } modelOutputFullSize)

/-! ## HybridNN pre/post-processor -/

/-- The input shape that `hybridnn_config` holds for LibTorch (HybridNNConfig.h 19-21). -/
def m_model_input_shape_torch : List Int := [256, 1, 150]

/-- The output shape that `hybridnn_config` holds for LibTorch. -/
def m_model_output_shape_torch : List Int := [256, 1]

/-- The input shape that `hybridnn_config` holds for ONNX Runtime (HybridNNConfig.h 22-24). -/
def m_model_input_shape_onnx : List Int := [256, 1, 150]

/-- The output shape that `hybridnn_config` holds for ONNX Runtime. -/
def m_model_output_shape_onnx : List Int := [256, 1]

/-- The input shape that `hybridnn_config` holds for TFLite (HybridNNConfig.h 25-27). -/
def m_model_input_shape_tflite : List Int := [256, 150, 1]

/-- The output shape that `hybridnn_config` holds for TFLite. -/
def m_model_output_shape_tflite : List Int := [256, 1]

/-- `HybridNNPrePostProcessor::pre_process` (HybridNNPrePostProcessor.h 10-59) in a build with
the three backends. `pop_samples_from_buffer(input, output, num_new_samples,
num_old_samples, offset)` belongs to the base class, which is not among the sources, and is
a parameter. `none` stands for the `std::runtime_error`. -/
def HybridNNPrePostProcessor.pre_process
    (pop_samples_from_buffer :
      RingBuffer → AudioBufferF → Nat → Nat → Nat → RingBuffer × AudioBufferF)
    (input : RingBuffer) (output : AudioBufferF) (current_inference_backend : InferenceBackend) :
    Option (RingBuffer × AudioBufferF) :=
  -- num_batches, num_input_samples, num_output_samples; not set for any other backend
  let sizes : Option (Int × Int × Int) :=
    match current_inference_backend with
    | InferenceBackend.LIBTORCH =>
      some (m_model_input_shape_torch.getD 0 0, m_model_input_shape_torch.getD 2 0,
        m_model_output_shape_torch.getD 1 0)
    | InferenceBackend.ONNX =>
      some (m_model_input_shape_onnx.getD 0 0, m_model_input_shape_onnx.getD 2 0,
        m_model_output_shape_onnx.getD 1 0)
    | InferenceBackend.TFLITE =>
      some (m_model_input_shape_tflite.getD 0 0, m_model_input_shape_tflite.getD 1 0,
        m_model_output_shape_tflite.getD 1 0)
    | InferenceBackend.NONE =>
      some (m_model_input_shape_torch.getD 0 0, m_model_input_shape_torch.getD 2 0,
        m_model_output_shape_torch.getD 1 0)
    | InferenceBackend.OTHER _ => none
  if current_inference_backend ≠ InferenceBackend.LIBTORCH ∧
      current_inference_backend ≠ InferenceBackend.ONNX ∧
      current_inference_backend ≠ InferenceBackend.TFLITE ∧
      current_inference_backend ≠ InferenceBackend.NONE then none
  else
    match sizes with
    | none => none
    | some (num_batches, num_input_samples, num_output_samples) =>
      some ((List.range num_batches.toNat).foldl
        (fun st batch =>
          let base_index := batch * num_input_samples.toNat
          pop_samples_from_buffer st.1 st.2 num_output_samples.toNat
            (num_input_samples - num_output_samples).toNat base_index)
        (input, output))

/-- The `HybridNNPrePostProcessor` as the pre/post-processor of a session; `post_process` is
inherited from the base class and is a parameter like `pop_samples_from_buffer`. -/
def HybridNNPrePostProcessor
    (pop_samples_from_buffer :
      RingBuffer → AudioBufferF → Nat → Nat → Nat → RingBuffer × AudioBufferF)
    (post_process : AudioBufferF → RingBuffer → InferenceBackend → RingBuffer) :
    PrePostProcessor where
  pre_process := HybridNNPrePostProcessor.pre_process pop_samples_from_buffer
  post_process := post_process

/-! ## Fixtures -/

/-- A mono configuration whose model output holds `hop` samples. -/
def mono_config (hop : Nat) : InferenceConfig :=
  { m_input_sizes := [hop], m_output_sizes := [hop], m_index_audio_data := ⟨0, 0⟩,
    m_num_audio_channels := ⟨1, 1⟩, m_num_parallel_processors := 1 }

/-- A slot as the `ThreadSafeStruct` constructor leaves it: free, not done. -/
def fresh_slot : ThreadSafeStruct :=
  { m_free := true, m_done := false, m_time_stamp := 0,
    m_processed_model_input := [], m_raw_model_output := [] }

/-- A mono session with hop 2, the given unread input samples, slots and pending time stamps. -/
def mono_session (input : List Sample) (slots : List ThreadSafeStruct) (time_stamps : List Nat)
    (current_queue : Nat) : SessionElement :=
  { m_session_id := 1, m_inference_config := mono_config 2,
    m_host_config := { m_host_buffer_size := 2, m_host_sample_rate := 4,
                       submit_task_to_host_thread := none },
    m_send_buffer := { m_capacity := 80, m_channels := [input] },
    m_receive_buffer := { m_capacity := 80, m_channels := [[]] },
    m_inference_queue := slots, m_time_stamps := time_stamps, m_current_queue := current_queue,
    m_currentBackend := InferenceBackend.NONE, m_initialized := true, m_active_inferences := 0 }

/-- A context without workers whose dispatch queue holds `items` and has the given capacity. -/
def queue_context (capacity : Nat) (items : List InferenceData) : AniraContext :=
  { m_context_config := { m_anira_version := "1", m_enabled_backends := [],
                          m_synchronization_type := SynchronizationType.ATOMIC,
                          m_num_threads := 0, m_use_host_threads := false },
    m_thread_pool := [], m_next_inference := { m_capacity := capacity, m_items := items },
    m_sessions := [1], m_next_id := 1, m_active_sessions := 1, m_host_threads_active := false }

/-! ## Draining in time-stamp order -/

/-- The slot of a time stamp: the first slot in index order that carries it, as the `for`
loop of `new_data_request` finds it. -/
def slot_of (s : SessionElement) (t : Nat) : Option (Nat × ThreadSafeStruct) :=
  scan (fun slot => slot.m_time_stamp == t) s.m_inference_queue

/-- The run behind C3: two slots, a dispatch queue of capacity 1. The first submit gets time
stamp 0, the second is rejected by the full queue, a worker takes the entry, the third submit
gets time stamp 1, its slot completes and a request follows. -/
def rejected_submit_run : List Event :=
  [Event.submit, Event.submit, Event.worker_take, Event.submit,
   Event.worker_done 1 [[9, 9]], Event.request 5]

/-- The session after the iteration of `new_data_request` that posts slot `i`. -/
def after_post (pp : PrePostProcessor) (s : SessionElement) (i : Nat) (slot : ThreadSafeStruct) :
    SessionElement :=
  { s with
    m_time_stamps := s.m_time_stamps.dropLast
    m_inference_queue := modify_at (fun t => { t with m_free := true }) i
      (modify_at (fun t => { t with m_done := false }) i s.m_inference_queue)
    m_receive_buffer := pp.post_process slot.m_raw_model_output s.m_receive_buffer s.m_currentBackend }

/-- The steps of a session that touch the slot flags: a claim by `pre_process` against any
dispatch queue (accepted, rejected and rolled back, or cut short by a throwing processor), a
worker completion on a claimed slot, a whole `new_data_request`, and a single iteration of
its `while` loop (worker completions may fall between two iterations). -/
inductive SessionStep (pp : PrePostProcessor) : SessionElement → SessionElement → Prop where
  | claim (s : SessionElement) (q : ConcurrentQueue) :
      SessionStep pp s (pre_process pp q s).session
  | complete (s : SessionElement) (i : Nat) (slot : ThreadSafeStruct) (output : AudioBufferF) :
      s.m_inference_queue[i]? = some slot → slot.m_free = false →
      SessionStep pp s (worker_done s i output)
  | drain (s : SessionElement) (fuel : Nat) (log : List Nat) (s' : SessionElement) :
      new_data_request pp fuel s = some (log, s') → SessionStep pp s s'
  | drain_iteration (s : SessionElement) (back : Nat) :
      s.m_time_stamps.getLast? = some back →
      SessionStep pp s (new_data_request_body pp s back).2

/-- The states a prepared session can reach. -/
inductive Reachable (pp : PrePostProcessor) : SessionElement → Prop where
  | prepared (s0 : SessionElement) (new_config : HostAudioConfig) :
      Reachable pp (s0.clear.prepare new_config)
  | step (s s' : SessionElement) : Reachable pp s → SessionStep pp s s' → Reachable pp s'

/-- The slot is free: it may be claimed. -/
def ThreadSafeStruct.is_free (t : ThreadSafeStruct) : Prop := t.m_free = true ∧ t.m_done = false

/-- The slot is in flight: claimed, and the backend has not finished. -/
def ThreadSafeStruct.is_in_flight (t : ThreadSafeStruct) : Prop := t.m_free = false ∧ t.m_done = false

/-- The slot is done: the backend has finished and the output was not yet posted. -/
def ThreadSafeStruct.is_done (t : ThreadSafeStruct) : Prop := t.m_free = false ∧ t.m_done = true

/-- The moves of a slot along free → in flight → done → free, or no move of the flags. -/
def allowed_move (a b : ThreadSafeStruct) : Prop :=
  (b.m_free = a.m_free ∧ b.m_done = a.m_done) ∨ (a.is_free ∧ b.is_in_flight) ∨
  (a.is_in_flight ∧ b.is_done) ∨ (a.is_done ∧ b.is_free)

/-- What a request does to a slot: nothing to its flags, or done → free. -/
def drain_move (a b : ThreadSafeStruct) : Prop :=
  (b.m_free = a.m_free ∧ b.m_done = a.m_done) ∨
  (a.m_done = true ∧ b.m_done = false ∧ b.m_free = true)

/-- No slot of the session is free and done at once. -/
def flags_exclusive (s : SessionElement) : Prop :=
  ∀ slot ∈ s.m_inference_queue, ¬ (slot.m_free = true ∧ slot.m_done = true)

/-- A session right after `prepare` on which one submit was accepted. -/
def claimed_once_session : SessionElement :=
  (pre_process (hop_processor 1 2) { m_capacity := 1, m_items := [] }
    ((mono_session [1, 2] [] [] 0).clear.prepare
      { m_host_buffer_size := 2, m_host_sample_rate := 4, submit_task_to_host_thread := none })).session

/-- A manager over a mono session whose receive ring holds `received`, with the given
shortage counter. -/
def mono_manager (received : List Sample) (counter : Int) : InferenceManager :=
  { m_context := queue_context 4 [], m_inference_config := mono_config 2,
    m_session := { mono_session [] [] [] 0 with
      m_receive_buffer := { m_capacity := 80, m_channels := [received] } },
    m_inference_counter := counter, nonRealtimeMode := false }

/-- A context with three sessions, two stopped workers and a dispatch queue that holds
entries of all three sessions. -/
def three_session_singleton : Singleton :=
  { context :=
      { m_context_config := { m_anira_version := "1", m_enabled_backends := [InferenceBackend.ONNX],
                              m_synchronization_type := SynchronizationType.ATOMIC,
                              m_num_threads := 2, m_use_host_threads := false },
        m_thread_pool := [{ m_running := false }, { m_running := false }],
        m_next_inference := { m_capacity := 4, m_items := [⟨1, 0⟩, ⟨2, 0⟩, ⟨1, 1⟩, ⟨3, 4⟩] },
        m_sessions := [1, 2, 3], m_next_id := 3, m_active_sessions := 3,
        m_host_threads_active := false },
    m_anira_context := true }

/-- A context in host-thread mode with two workers that were never started, and a session
whose host callback refuses the next task. -/
def host_context : AniraContext :=
  { m_context_config := { m_anira_version := "1", m_enabled_backends := [InferenceBackend.ONNX],
                          m_synchronization_type := SynchronizationType.ATOMIC,
                          m_num_threads := 2, m_use_host_threads := true },
    m_thread_pool := [{ m_running := false }, { m_running := false }],
    m_next_inference := { m_capacity := 4, m_items := [] },
    m_sessions := [1], m_next_id := 1, m_active_sessions := 1, m_host_threads_active := true }

/-- The session of `host_context`: one hop of input, one free slot, a host callback that
refuses its next task. -/
def host_session : SessionElement :=
  { mono_session [1, 2] [fresh_slot] [] 0 with
    m_host_config := { m_host_buffer_size := 2, m_host_sample_rate := 4,
                       submit_task_to_host_thread := some { m_answers := [false], m_calls := 0 } } }

/-- The two-worker configuration of the life-cycle example. -/
def two_thread_config : AniraContextConfig :=
  { m_anira_version := "1", m_enabled_backends := [InferenceBackend.ONNX],
    m_synchronization_type := SynchronizationType.ATOMIC, m_num_threads := 2,
    m_use_host_threads := false }

/-! ## Copying the input block: definitions -/

/-- The samples of a block in the order `process_input` reads them: sample by sample, and
within a sample channel by channel, so that position `i` holds sample `i / numChannels` of
channel `i % numChannels`. -/
def interleaved (buffer : JuceAudioBuffer) : List Sample :=
  (List.range (buffer.numSamples * buffer.numChannels)).map
    (fun i => buffer.getSample (i % buffer.numChannels) (i / buffer.numChannels))

/-- A two-channel block with the samples `1 2` and `3 4`. -/
def stereo_block : JuceAudioBuffer := { numChannels := 2, numSamples := 2, data := [[1, 2], [3, 4]] }

/-- A manager whose send ring has two empty channels. -/
def stereo_manager : InferenceManager :=
  { mono_manager [] 0 with
    m_session := { mono_session [] [] [] 0 with
      m_send_buffer := { m_capacity := 80, m_channels := [[], []] } } }

/-! ## An invalid backend in pre-processing: definitions -/

/-- A `HybridNNPrePostProcessor` whose base-class helpers move nothing. -/
def idle_hybrid_processor : PrePostProcessor :=
  HybridNNPrePostProcessor (fun ring tensor _ _ _ => (ring, tensor)) (fun _ ring _ => ring)

/-- A mono session with one hop of input and one free slot whose active backend is none of
the named ones. -/
def invalid_backend_session : SessionElement :=
  { mono_session [1, 2] [fresh_slot] [] 0 with m_currentBackend := InferenceBackend.OTHER 7 }

/-! ## Time stamps count up: definitions -/

/-- A mono session with two hops of input and two free slots whose next time stamp is the
last 16-bit value, in front of a dispatch queue with room. -/
def wrap_trace : Trace :=
  { session := mono_session [1, 2, 3, 4] [fresh_slot, fresh_slot] [] 65535,
    m_next_inference := { m_capacity := 4, m_items := [] },
    submitted := [], emitted := [] }

/-- The session after a `pre_process` that claimed slot `i` and was left by an exception of
the pre/post-processor. -/
def after_throw (s : SessionElement) (i : Nat) : SessionElement :=
  { s with
    m_inference_queue := modify_at (fun t => { t with m_free := false }) i s.m_inference_queue }

/-- The session after a `pre_process` that claimed slot `i` and whose entry was accepted. -/
def after_accept (s : SessionElement) (i : Nat) (ring : RingBuffer) (input : AudioBufferF) :
    SessionElement :=
  { s with
    m_send_buffer := ring
    m_time_stamps := s.m_current_queue :: s.m_time_stamps
    m_inference_queue := modify_at
      (fun t => { t with m_processed_model_input := input, m_time_stamp := s.m_current_queue }) i
      (modify_at (fun t => { t with m_free := false }) i s.m_inference_queue)
    m_current_queue := if s.m_current_queue ≥ 65535 then 0 else s.m_current_queue + 1 }

/-- The session after a `pre_process` that claimed slot `i` and whose entry was rejected. -/
def after_reject (s : SessionElement) (i : Nat) (ring : RingBuffer) (input : AudioBufferF) :
    SessionElement :=
  { s with
    m_send_buffer := ring
    m_time_stamps := (s.m_current_queue :: s.m_time_stamps).dropLast
    m_inference_queue := modify_at (fun t => { t with m_free := true }) i
      (modify_at
        (fun t => { t with m_processed_model_input := input, m_time_stamp := s.m_current_queue }) i
        (modify_at (fun t => { t with m_free := false }) i s.m_inference_queue)) }

/-! ## Prepare is idempotent: definitions -/

/-- The session as `AniraContext::prepare` leaves it. -/
def prepared_session (session : SessionElement) (new_config : HostAudioConfig) : SessionElement :=
  { ({ session with m_initialized := false } : SessionElement).clear.prepare new_config with
    m_initialized := true }

/-- A host configuration without host threads: blocks of 2 samples at rate 4. -/
def small_host_config : HostAudioConfig :=
  { m_host_buffer_size := 2, m_host_sample_rate := 4, submit_task_to_host_thread := none }

/-! ## Termination of a request and the pending list: definitions -/

/-- A freshly prepared mono session that then received eight input samples, in front of an
empty dispatch queue of capacity 1. -/
def spin_trace : Trace :=
  { session := { (mono_session [] [] [] 0).clear.prepare small_host_config with
      m_send_buffer := { m_capacity := 80, m_channels := [[1, 2, 3, 4, 5, 6, 7, 8]] } },
    m_next_inference := { m_capacity := 1, m_items := [] },
    submitted := [], emitted := [] }

/-- The run that ends in a spinning request: an accepted submit, a submit rejected by the full
queue, then an accepted submit whose slot completes and is posted, and one more accepted
submit, which takes that slot again. -/
def spin_run : List Event :=
  [Event.submit, Event.submit, Event.worker_take, Event.submit, Event.worker_done 1 [[9, 9]],
   Event.request 5, Event.worker_take, Event.submit]

/-- The time stamps of the slots that are not free, in index order. -/
def claimed_time_stamps (s : SessionElement) : List Nat :=
  (s.m_inference_queue.filter (fun slot => !slot.m_free)).map (fun slot => slot.m_time_stamp)

/-! ## Emission order on rejection-free runs: definitions -/

/-- The submit of the trace claims a slot and has its dispatch entry rejected. -/
def Trace.rejected (pp : PrePostProcessor) (t : Trace) : Prop :=
  scan (fun slot => slot.m_free) t.session.m_inference_queue ≠ none ∧
  (pre_process pp t.m_next_inference t.session).returned = some false

/-- No submit of the run has its dispatch entry rejected. -/
def Trace.never_rejected (pp : PrePostProcessor) : Trace → List Event → Prop
  | _, [] => True
  | t, e :: es =>
    (e = Event.submit → ¬ t.rejected pp) ∧
    ∀ t1, t.step pp e = some t1 → Trace.never_rejected pp t1 es

/-! # Theorems -/

/-! ## Facts about the loop helpers -/

theorem scan_eq_none {α : Type} (p : α → Bool) (xs : List α) :
    scan p xs = none ↔ ∀ x ∈ xs, p x = false := by
  induction xs with
  | nil => simp [scan]
  | cons x xs ih => by_cases h : p x <;> simp [scan, h, ih]

theorem scan_some {α : Type} (p : α → Bool) (xs : List α) (i : Nat) (x : α)
    (h : scan p xs = some (i, x)) : xs[i]? = some x ∧ p x = true := by
  induction xs generalizing i with
  | nil => simp [scan] at h
  | cons y ys ih =>
    by_cases hy : p y
    · simp [scan, hy] at h
      obtain ⟨rfl, rfl⟩ := h
      simp [hy]
    · simp [scan, hy] at h
      obtain ⟨j, hj, rfl⟩ := h
      simpa using ih j hj

theorem modify_at_length {α : Type} (f : α → α) (i : Nat) (xs : List α) :
    (modify_at f i xs).length = xs.length := by
  induction xs generalizing i with
  | nil => cases i <;> simp [modify_at]
  | cons y ys ih => cases i <;> simp [modify_at, ih]

theorem modify_at_getElem? {α : Type} (f : α → α) (i j : Nat) (xs : List α) :
    (modify_at f i xs)[j]? = if j = i then xs[j]?.map f else xs[j]? := by
  induction xs generalizing i j with
  | nil => cases i <;> simp [modify_at]
  | cons y ys ih =>
    cases i with
    | zero => cases j <;> simp [modify_at]
    | succ i => cases j <;> simp [modify_at, ih]

theorem new_data_request_body_posted (pp : PrePostProcessor) (s : SessionElement) (back i : Nat)
    (slot : ThreadSafeStruct) (h : slot_of s back = some (i, slot)) (hd : slot.m_done = true) :
    new_data_request_body pp s back = (RequestStep.posted, after_post pp s i slot) := by
  unfold slot_of at h
  simp [new_data_request_body, h, hd, post_process, after_post]

theorem new_data_request_body_not_done (pp : PrePostProcessor) (s : SessionElement) (back i : Nat)
    (slot : ThreadSafeStruct) (h : slot_of s back = some (i, slot)) (hd : slot.m_done = false) :
    new_data_request_body pp s back = (RequestStep.not_done, s) := by
  unfold slot_of at h
  simp [new_data_request_body, h, hd]

theorem drain_move_trans (a b c : ThreadSafeStruct) (h1 : drain_move a b) (h2 : drain_move b c) :
    drain_move a c := by
  unfold drain_move at *
  rcases h1 with ⟨h1, h1'⟩ | ⟨h1, h1', h1''⟩
  · rcases h2 with ⟨h2, h2'⟩ | ⟨h2, h2', h2''⟩
    · exact Or.inl ⟨h2.trans h1, h2'.trans h1'⟩
    · exact Or.inr ⟨h1' ▸ h2, h2', h2''⟩
  · rcases h2 with ⟨h2, h2'⟩ | ⟨h2, h2', h2''⟩
    · exact Or.inr ⟨h1, h2'.trans h1', h2.trans h1''⟩
    · rw [h1'] at h2
      cases h2

theorem prepared_slots (s0 : SessionElement) (new_config : HostAudioConfig) :
    (s0.clear.prepare new_config).m_inference_queue.length = 20 ∧
    ∀ slot ∈ (s0.clear.prepare new_config).m_inference_queue, slot.is_free := by
  constructor
  · simp [SessionElement.prepare, SessionElement.clear]
  · intro slot h
    simp [SessionElement.prepare, SessionElement.clear] at h
    rw [h]
    exact ⟨rfl, rfl⟩

theorem pre_process_length (pp : PrePostProcessor) (q : ConcurrentQueue) (s : SessionElement) :
    (pre_process pp q s).session.m_inference_queue.length = s.m_inference_queue.length := by
  unfold pre_process
  split
  · rfl
  · split
    · simp [modify_at_length]
    · simp only [ConcurrentQueue.try_enqueue]
      split <;> simp [modify_at_length]

theorem pre_process_slot (pp : PrePostProcessor) (q : ConcurrentQueue) (s : SessionElement)
    (j : Nat) (a : ThreadSafeStruct) (h : s.m_inference_queue[j]? = some a) :
    ∃ b, (pre_process pp q s).session.m_inference_queue[j]? = some b ∧ b.m_done = a.m_done ∧
      b.m_raw_model_output = a.m_raw_model_output ∧
      (b.m_free = a.m_free ∨ (a.m_free = true ∧ b.m_free = false)) := by
  unfold pre_process
  split
  · exact ⟨a, h, rfl, rfl, Or.inl rfl⟩
  · rename_i i slot hscan
    have hi := scan_some _ _ _ _ hscan
    by_cases hji : j = i
    · subst hji
      rw [h] at hi
      obtain ⟨hi1, hi2⟩ := hi
      cases hi1
      split
      · simp [modify_at_getElem?, h, hi2]
      · simp only [ConcurrentQueue.try_enqueue]
        split <;> simp [modify_at_getElem?, h, hi2]
    · split
      · simp [modify_at_getElem?, h, hji]
      · simp only [ConcurrentQueue.try_enqueue]
        split <;> simp [modify_at_getElem?, h, hji]


theorem new_data_request_body_length (pp : PrePostProcessor) (s : SessionElement) (back : Nat) :
    (new_data_request_body pp s back).2.m_inference_queue.length = s.m_inference_queue.length := by
  unfold new_data_request_body
  split
  · rfl
  · split
    · simp [post_process, modify_at_length]
    · rfl

theorem new_data_request_body_slot (pp : PrePostProcessor) (s : SessionElement) (back j : Nat)
    (a : ThreadSafeStruct) (h : s.m_inference_queue[j]? = some a) :
    ∃ b, (new_data_request_body pp s back).2.m_inference_queue[j]? = some b ∧ drain_move a b := by
  unfold new_data_request_body
  split
  · exact ⟨a, h, Or.inl ⟨rfl, rfl⟩⟩
  · rename_i i slot hscan
    have hi := scan_some _ _ _ _ hscan
    split
    · rename_i hd
      by_cases hji : j = i
      · subst hji
        rw [h] at hi
        obtain ⟨hi1, -⟩ := hi
        cases hi1
        refine ⟨{ a with m_done := false, m_free := true }, ?_, Or.inr ⟨hd, rfl, rfl⟩⟩
        simp [post_process, modify_at_getElem?, h]
      · exact ⟨a, by simp [post_process, modify_at_getElem?, h, hji], Or.inl ⟨rfl, rfl⟩⟩
    · exact ⟨a, h, Or.inl ⟨rfl, rfl⟩⟩

theorem new_data_request_slot (pp : PrePostProcessor) :
    ∀ (fuel : Nat) (s s' : SessionElement) (log : List Nat),
      new_data_request pp fuel s = some (log, s') →
      s'.m_inference_queue.length = s.m_inference_queue.length ∧
      ∀ (j : Nat) (a : ThreadSafeStruct), s.m_inference_queue[j]? = some a →
        ∃ b, s'.m_inference_queue[j]? = some b ∧ drain_move a b := by
  intro fuel
  induction fuel with
  | zero => intro s s' log h; simp [new_data_request] at h
  | succ fuel ih =>
    intro s s' log h
    unfold new_data_request at h
    split at h
    · simp at h
      obtain ⟨-, rfl⟩ := h
      exact ⟨rfl, fun j a ha => ⟨a, ha, Or.inl ⟨rfl, rfl⟩⟩⟩
    · rename_i back hback
      have hlen := new_data_request_body_length pp s back
      have hslot := new_data_request_body_slot pp s back
      split at h
      · rename_i s1 hb
        rw [hb] at hlen hslot
        simp at h
        obtain ⟨log1, hreq, -⟩ := h
        obtain ⟨l2, m2⟩ := ih _ _ _ hreq
        refine ⟨l2.trans hlen, fun j a ha => ?_⟩
        obtain ⟨b, hb1, hb2⟩ := hslot j a ha
        obtain ⟨c, hc1, hc2⟩ := m2 j b hb1
        exact ⟨c, hc1, drain_move_trans a b c hb2 hc2⟩
      · rename_i s1 hb
        rw [hb] at hlen hslot
        simp at h
        obtain ⟨-, rfl⟩ := h
        exact ⟨hlen, hslot⟩
      · rename_i s1 hb
        rw [hb] at hlen hslot
        obtain ⟨l2, m2⟩ := ih _ _ _ h
        refine ⟨l2.trans hlen, fun j a ha => ?_⟩
        obtain ⟨b, hb1, hb2⟩ := hslot j a ha
        obtain ⟨c, hc1, hc2⟩ := m2 j b hb1
        exact ⟨c, hc1, drain_move_trans a b c hb2 hc2⟩

theorem session_step_moves (pp : PrePostProcessor) (s s' : SessionElement)
    (hinv : flags_exclusive s) (hstep : SessionStep pp s s') :
    s'.m_inference_queue.length = s.m_inference_queue.length ∧
    ∀ (i : Nat) (a b : ThreadSafeStruct), s.m_inference_queue[i]? = some a →
      s'.m_inference_queue[i]? = some b → allowed_move a b := by
  have hmem : ∀ (i : Nat) (a : ThreadSafeStruct), s.m_inference_queue[i]? = some a → ¬ (a.m_free = true ∧ a.m_done = true) :=
    fun i a ha => hinv a (List.mem_iff_getElem?.mpr ⟨i, ha⟩)
  have hdrain : ∀ (i : Nat) (a b : ThreadSafeStruct), s.m_inference_queue[i]? = some a → drain_move a b → allowed_move a b := by
    intro i a b ha hm
    rcases hm with ⟨h1, h2⟩ | ⟨h1, h2, h3⟩
    · exact Or.inl ⟨h1, h2⟩
    · have hf : a.m_free = false := by
        cases hfa : a.m_free
        · rfl
        · exact absurd ⟨hfa, h1⟩ (hmem i a ha)
      exact Or.inr (Or.inr (Or.inr ⟨⟨hf, h1⟩, ⟨h3, h2⟩⟩))
  cases hstep with
  | claim q =>
    refine ⟨pre_process_length pp q s, fun i a b ha hb => ?_⟩
    obtain ⟨b1, hb1, hd, -, hf⟩ := pre_process_slot pp q s i a ha
    rw [hb1] at hb
    cases hb
    rcases hf with hf | ⟨hf1, hf2⟩
    · exact Or.inl ⟨hf, hd⟩
    · have hda : a.m_done = false := by
        cases hda : a.m_done
        · rfl
        · exact absurd ⟨hf1, hda⟩ (hmem i a ha)
      exact Or.inr (Or.inl ⟨⟨hf1, hda⟩, ⟨hf2, hd.trans hda⟩⟩)
  | complete j slot output hj hfree =>
    refine ⟨by simp [worker_done, modify_at_length], fun i a b ha hb => ?_⟩
    simp only [worker_done, modify_at_getElem?] at hb
    by_cases hij : i = j
    · subst hij
      rw [ha] at hj
      cases hj
      simp [ha] at hb
      subst hb
      cases hda : slot.m_done
      · exact Or.inr (Or.inr (Or.inl ⟨⟨hfree, hda⟩, ⟨hfree, rfl⟩⟩))
      · exact Or.inl ⟨rfl, hda.symm⟩
    · simp [hij, ha] at hb
      subst hb
      exact Or.inl ⟨rfl, rfl⟩
  | drain fuel log _ hreq =>
    obtain ⟨hl, hm⟩ := new_data_request_slot pp fuel s s' log hreq
    refine ⟨hl, fun i a b ha hb => ?_⟩
    obtain ⟨b1, hb1, hmv⟩ := hm i a ha
    rw [hb1] at hb
    cases hb
    exact hdrain i a _ ha hmv
  | drain_iteration back hback =>
    refine ⟨new_data_request_body_length pp s back, fun i a b ha hb => ?_⟩
    obtain ⟨b1, hb1, hmv⟩ := new_data_request_body_slot pp s back i a ha
    rw [hb1] at hb
    cases hb
    exact hdrain i a _ ha hmv

theorem allowed_move_exclusive (a b : ThreadSafeStruct) (h : allowed_move a b)
    (ha : ¬ (a.m_free = true ∧ a.m_done = true)) : ¬ (b.m_free = true ∧ b.m_done = true) := by
  rintro ⟨hf, hd⟩
  rcases h with ⟨h1, h2⟩ | ⟨-, h1, -⟩ | ⟨-, h1, -⟩ | ⟨-, -, h2⟩
  · exact ha ⟨h1 ▸ hf, h2 ▸ hd⟩
  · rw [h1] at hf
    cases hf
  · rw [h1] at hf
    cases hf
  · rw [h2] at hd
    cases hd

theorem reachable_flags_exclusive (pp : PrePostProcessor) (s : SessionElement)
    (h : Reachable pp s) : s.m_inference_queue.length = 20 ∧ flags_exclusive s := by
  induction h with
  | prepared s0 new_config =>
    obtain ⟨hl, hf⟩ := prepared_slots s0 new_config
    refine ⟨hl, fun slot hslot => ?_⟩
    have := hf slot hslot
    rintro ⟨-, hd⟩
    rw [this.2] at hd
    cases hd
  | step s s' _ hstep ih =>
    obtain ⟨hl, hm⟩ := session_step_moves pp s s' ih.2 hstep
    refine ⟨hl.trans ih.1, fun b hb => ?_⟩
    obtain ⟨i, hi⟩ := List.mem_iff_getElem?.mp hb
    have hlt : i < s.m_inference_queue.length := by
      have := (List.getElem?_eq_some_iff.mp hi).1
      omega
    have ha : s.m_inference_queue[i]? = some s.m_inference_queue[i] := List.getElem?_eq_getElem hlt
    exact allowed_move_exclusive _ b (hm i _ b ha hi) (ih.2 _ (List.getElem_mem hlt))

/-- C5: in every state a prepared session reaches by claims (accepted, or rejected and rolled
back), worker completions on claimed slots and drains, no slot is free and done at once, so
each slot is free, in flight or done; the slots of a prepared session start free; and every
step keeps the pool size and moves each slot along free → in flight → done → free or leaves
its flags alone. -/
theorem slot_flags_life_cycle (pp : PrePostProcessor) (s : SessionElement)
    (h : Reachable pp s) :
    (∀ slot ∈ s.m_inference_queue, ¬ (slot.m_free = true ∧ slot.m_done = true)) ∧
    (∀ slot ∈ s.m_inference_queue, slot.is_free ∨ slot.is_in_flight ∨ slot.is_done) ∧
    (∀ (s0 : SessionElement) (new_config : HostAudioConfig),
      ∀ slot ∈ (s0.clear.prepare new_config).m_inference_queue, slot.is_free) ∧
    (∀ s', SessionStep pp s s' →
      s'.m_inference_queue.length = s.m_inference_queue.length ∧
      ∀ (i : Nat) (a b : ThreadSafeStruct), s.m_inference_queue[i]? = some a →
        s'.m_inference_queue[i]? = some b → allowed_move a b) := by
  have hinv := (reachable_flags_exclusive pp s h).2
  refine ⟨hinv, fun slot hslot => ?_, fun s0 c => (prepared_slots s0 c).2,
    fun s' hstep => session_step_moves pp s s' hinv hstep⟩
  have hx := hinv slot hslot
  unfold ThreadSafeStruct.is_free ThreadSafeStruct.is_in_flight ThreadSafeStruct.is_done
  cases hf : slot.m_free <;> cases hd : slot.m_done <;> simp_all

/-- C5 at a prepared session after one accepted submit. -/
theorem slot_flags_life_cycle_witness :
    Reachable (hop_processor 1 2) claimed_once_session ∧
    ∀ slot ∈ claimed_once_session.m_inference_queue,
      ¬ (slot.m_free = true ∧ slot.m_done = true) :=
  ⟨Reachable.step _ _ (Reachable.prepared _ _) (SessionStep.claim _ _),
   (slot_flags_life_cycle (hop_processor 1 2) claimed_once_session
      (Reachable.step _ _ (Reachable.prepared _ _) (SessionStep.claim _ _))).1⟩

/-! ## Degradation and rollback on a rejected dispatch entry -/

/-- C1, at a rejected dispatch entry. A mono session with hop 2 holds the samples `1 2 3 4`,
has one free slot and faces a full dispatch queue; its pre/post-processor advances the send
ring by one hop per call. `pre_process` returns false, and the loop iteration of
`new_data_submitted` ends with an empty send ring: two hops were removed, the one
`pre_process` consumed and the one the failure branch dropped, for one hop of zeros pushed. -/
theorem new_data_submitted_body_rejected_removes_two_hops :
    (hop_processor 1 2).pre_process (mono_session [1, 2, 3, 4] [fresh_slot] [] 0).m_send_buffer []
        InferenceBackend.NONE
      = some ({ m_capacity := 80, m_channels := [[3, 4]] }, [[1, 2]]) ∧
    to_size_t (new_samples_needed_for_inference (mono_session [1, 2, 3, 4] [fresh_slot] [] 0)) = 2 ∧
    (pre_process (hop_processor 1 2) (queue_context 0 []).m_next_inference
        (mono_session [1, 2, 3, 4] [fresh_slot] [] 0)).returned = some false ∧
    ∃ ctx1 s1,
      new_data_submitted_body (hop_processor 1 2) (queue_context 0 [])
          (mono_session [1, 2, 3, 4] [fresh_slot] [] 0) = Outcome.returned (ctx1, s1) ∧
      s1.m_send_buffer.m_channels = [[]] ∧
      s1.m_receive_buffer.m_channels = [[0, 0]] := by
  refine ⟨by decide, by decide, by decide, _, _, rfl, by decide, by decide⟩

/-- C2, with a time stamp already pending. Slot 0 is in flight with time stamp 7, which is
pending; slot 1 is free, `m_current_queue` is 8 and the dispatch queue is full.
`pre_process` returns false, slot 1 is free again and `m_current_queue` is still 8, but the
pending list is `[8]` and no longer `[7]`: the new stamp went in at the front and
`pop_back` took the oldest one. -/
theorem pre_process_rejected_pops_oldest_time_stamp :
    (pre_process (hop_processor 1 2) { m_capacity := 0, m_items := [] }
        (mono_session [1, 2, 3, 4] [{ fresh_slot with m_free := false, m_time_stamp := 7 }, fresh_slot]
          [7] 8)).returned = some false ∧
    ((pre_process (hop_processor 1 2) { m_capacity := 0, m_items := [] }
        (mono_session [1, 2, 3, 4] [{ fresh_slot with m_free := false, m_time_stamp := 7 }, fresh_slot]
          [7] 8)).session.m_inference_queue.map (fun slot => slot.m_free)) = [false, true] ∧
    (pre_process (hop_processor 1 2) { m_capacity := 0, m_items := [] }
        (mono_session [1, 2, 3, 4] [{ fresh_slot with m_free := false, m_time_stamp := 7 }, fresh_slot]
          [7] 8)).session.m_current_queue = 8 ∧
    (pre_process (hop_processor 1 2) { m_capacity := 0, m_items := [] }
        (mono_session [1, 2, 3, 4] [{ fresh_slot with m_free := false, m_time_stamp := 7 }, fresh_slot]
          [7] 8)).session.m_time_stamps = [8] := by
  decide

/-- C3, on a run with a rejected submit: the successful submits were stamped `0, 1`, and the
request hands time stamp 1 to `post_process` while 0 was never emitted, so the emitted
sequence `[1]` does not start the submitted sequence `[0, 1]`. -/
theorem emitted_order_broken_after_rejected_submit :
    ∃ t, Trace.run (hop_processor 1 2)
        { session := mono_session [1, 2, 3, 4, 5, 6] [fresh_slot, fresh_slot] [] 0,
          m_next_inference := { m_capacity := 1, m_items := [] },
          submitted := [], emitted := [] } rejected_submit_run = some t ∧
      t.submitted = [0, 1] ∧ t.emitted = [1] ∧ ¬ (t.emitted <+: t.submitted) := by
  refine ⟨_, rfl, by decide, by decide, by decide⟩

/-! ## Releasing sessions -/

theorem dequeue_all_eq (session_id : Int) (capacity : Nat) :
    ∀ (items inference_stack : List InferenceData) (fuel : Nat), items.length < fuel →
      dequeue_all session_id fuel { m_capacity := capacity, m_items := items } inference_stack
        = some ({ m_capacity := capacity, m_items := [] },
            inference_stack ++ items.filter (fun d => d.m_session != session_id)) := by
  intro items
  induction items with
  | nil =>
    intro st fuel h
    cases fuel with
    | zero => omega
    | succ fuel => simp [dequeue_all, ConcurrentQueue.try_dequeue]
  | cons d rest ih =>
    intro st fuel h
    cases fuel with
    | zero => omega
    | succ fuel =>
      simp only [dequeue_all, ConcurrentQueue.try_dequeue]
      rw [ih _ fuel (by simpa using h)]
      by_cases hd : d.m_session = session_id <;> simp [hd, List.filter_cons]

theorem requeue_mem (inference_stack : List InferenceData) :
    ∀ (q : ConcurrentQueue) (d : InferenceData), d ∈ (requeue q inference_stack).m_items →
      d ∈ q.m_items ∨ d ∈ inference_stack := by
  induction inference_stack with
  | nil => intro q d h; exact Or.inl h
  | cons x xs ih =>
    intro q d h
    simp only [requeue, List.foldl_cons] at h
    rcases ih _ d h with h1 | h1
    · unfold ConcurrentQueue.try_enqueue at h1
      split at h1
      · simp at h1
        rcases h1 with h1 | h1
        · exact Or.inl h1
        · exact Or.inr (h1 ▸ List.mem_cons_self _ _)
      · exact Or.inl h1
    · exact Or.inr (List.mem_cons_of_mem _ h1)

theorem requeue_fits (capacity : Nat) (inference_stack : List InferenceData) :
    ∀ (items : List InferenceData), items.length + inference_stack.length ≤ capacity →
      requeue { m_capacity := capacity, m_items := items } inference_stack
        = { m_capacity := capacity, m_items := items ++ inference_stack } := by
  induction inference_stack with
  | nil => intro items _; simp [requeue]
  | cons x xs ih =>
    intro items h
    simp only [List.length_cons] at h
    have hlt : items.length < capacity := by omega
    simp only [requeue, List.foldl_cons, ConcurrentQueue.try_enqueue, hlt, if_true]
    have := ih (items ++ [x]) (by simp; omega)
    simpa [requeue] using this

/-- C6: `release_session`, once the session has no inference in progress, returns and leaves
no dispatch entry of the released session. If the entries of the other sessions fit the queue,
so that every requeue succeeds, the queue holds exactly those entries in their old order. The
session id is gone from `m_sessions` (ids are distinct) and the other ids stay, in order. -/
theorem release_session_clears_queue (g : Singleton) (session : SessionElement)
    (hwait : session.m_active_inferences = 0) (hnodup : g.context.m_sessions.Nodup) :
    ∃ r, release_session g session = some r ∧
      (∀ d ∈ r.1.context.m_next_inference.m_items, d.m_session ≠ session.m_session_id) ∧
      ((g.context.m_next_inference.m_items.filter
            (fun d => d.m_session != session.m_session_id)).length
          ≤ g.context.m_next_inference.m_capacity →
        r.1.context.m_next_inference.m_items = g.context.m_next_inference.m_items.filter
          (fun d => d.m_session != session.m_session_id)) ∧
      session.m_session_id ∉ r.1.context.m_sessions ∧
      r.1.context.m_sessions
        = g.context.m_sessions.filter (fun id => id != session.m_session_id) := by
  obtain ⟨ctx, live⟩ := g
  obtain ⟨cfg, pool, ⟨capacity, items⟩, sessions, next_id, active, host⟩ := ctx
  simp only at hnodup
  have hdq := dequeue_all_eq session.m_session_id capacity items [] (items.length + 1)
    (Nat.lt_succ_self _)
  have hq1 : ∀ d ∈ (requeue { m_capacity := capacity, m_items := [] }
      (items.filter (fun d => d.m_session != session.m_session_id))).m_items,
      d.m_session ≠ session.m_session_id := by
    intro d hd
    rcases requeue_mem _ _ d hd with h | h
    · simp at h
    · simpa using (List.mem_filter.mp h).2
  have hq2 : (items.filter (fun d => d.m_session != session.m_session_id)).length
      ≤ capacity →
      (requeue { m_capacity := capacity, m_items := [] }
        (items.filter (fun d => d.m_session != session.m_session_id))).m_items
        = items.filter (fun d => d.m_session != session.m_session_id) := by
    intro h
    rw [requeue_fits capacity _ [] (by simpa using h)]
    simp
  have hs1 : session.m_session_id ∉ sessions.erase session.m_session_id :=
    fun h => (List.Nodup.mem_erase_iff hnodup).mp h |>.1 rfl
  have hs2 : sessions.erase session.m_session_id
      = sessions.filter (fun id => id != session.m_session_id) :=
    List.Nodup.erase_eq_filter hnodup _
  simp only [List.nil_append] at hdq
  simp only [release_session, hwait, ne_eq, not_true_eq_false, if_false, hdq]
  by_cases hz : active - 1 = 0
  · rw [if_pos hz]
    exact ⟨_, rfl, hq1, hq2, hs1, hs2⟩
  · rw [if_neg hz]
    exact ⟨_, rfl, hq1, hq2, hs1, hs2⟩


theorem release_session_eq (g : Singleton) (session : SessionElement)
    (hwait : session.m_active_inferences = 0) :
    release_session g session =
      some (
        if g.context.m_active_sessions - 1 = 0 then
          ({ context := { g.context with
                m_thread_pool := []
                m_next_inference := requeue { g.context.m_next_inference with m_items := [] }
                  (g.context.m_next_inference.m_items.filter
                    (fun d => d.m_session != session.m_session_id))
                m_sessions := g.context.m_sessions.erase session.m_session_id
                m_active_sessions := g.context.m_active_sessions - 1 },
             m_anira_context := false }, { session with m_initialized := false })
        else
          ({ g with context := { g.context with
                m_next_inference := requeue { g.context.m_next_inference with m_items := [] }
                  (g.context.m_next_inference.m_items.filter
                    (fun d => d.m_session != session.m_session_id))
                m_sessions := g.context.m_sessions.erase session.m_session_id
                m_active_sessions := g.context.m_active_sessions - 1 } },
            { session with m_initialized := false })) := by
  obtain ⟨ctx, live⟩ := g
  obtain ⟨cfg, pool, ⟨capacity, items⟩, sessions, next_id, active, host⟩ := ctx
  have hdq := dequeue_all_eq session.m_session_id capacity items [] (items.length + 1)
    (Nat.lt_succ_self _)
  simp only [List.nil_append] at hdq
  simp only [release_session, hwait, ne_eq, not_true_eq_false, if_false, hdq]
  by_cases hz : active - 1 = 0
  · rw [if_pos hz, if_pos hz]
    rfl
  · rw [if_neg hz, if_neg hz]

theorem Lifecycle.step_consistent (l l' : Lifecycle) (op : LifecycleOp) (h : l.consistent)
    (hstep : l.step op = some l') : l'.consistent := by
  cases op with
  | create inference_config =>
    simp only [Lifecycle.step, Option.some.injEq] at hstep
    subst hstep
    refine ⟨?_, ?_⟩
    · simp [create_session, get_available_session_id, h.1]
    · intro s hs
      simp only [List.mem_append, List.mem_singleton] at hs
      rcases hs with hs | hs
      · exact h.2 s hs
      · rw [hs]
        simp [create_session, get_available_session_id, SessionElement.create]
  | release session_id =>
    simp only [Lifecycle.step] at hstep
    split at hstep
    · cases hstep
    · rename_i session hfind
      have hmem : session ∈ l.sessions := List.mem_of_find?_eq_some hfind
      rw [release_session_eq _ _ (h.2 session hmem)] at hstep
      simp only [Option.map_some', Option.some.injEq] at hstep
      subst hstep
      have hlen : (l.sessions.erase session).length = l.sessions.length - 1 :=
        List.length_erase_of_mem hmem
      have hpos : 0 < l.sessions.length := List.length_pos_of_mem hmem
      refine ⟨?_, fun s hs => h.2 s (List.mem_of_mem_erase hs)⟩
      have h1 := h.1
      split <;> simp [hlen, h1] <;> omega

theorem Lifecycle.run_consistent :
    ∀ (ops : List LifecycleOp) (l l' : Lifecycle), l.consistent →
      Lifecycle.run l ops = some l' → l'.consistent := by
  intro ops
  induction ops with
  | nil =>
    intro l l' h hrun
    simp only [Lifecycle.run, Option.some.injEq] at hrun
    exact hrun ▸ h
  | cons op ops ih =>
    intro l l' h hrun
    simp only [Lifecycle.run] at hrun
    cases hstep : l.step op with
    | none => simp [hstep] at hrun
    | some l1 =>
      simp only [hstep, Option.some_bind] at hrun
      exact ih l1 l' (Lifecycle.step_consistent l l1 op h hstep) hrun

theorem Lifecycle.fresh_consistent (queue_capacity : Nat) (context_config : AniraContextConfig) :
    (Lifecycle.fresh queue_capacity context_config).consistent := by
  simp [Lifecycle.consistent, Lifecycle.fresh, get_instance, AniraContext.create]

/-- C7: after any calls of `create_session` and `release_session` on a freshly created context,
each release being of an outstanding session, the release of an outstanding session returns
and takes one session off the record. If it was the last one, the worker pool is empty and
the static `m_anira_context` is null; if sessions remain, the release leaves the pool and the
static as they were. -/
theorem last_release_tears_down (queue_capacity : Nat) (context_config : AniraContextConfig)
    (ops : List LifecycleOp) (l : Lifecycle) (session_id : Int)
    (hrun : Lifecycle.run (Lifecycle.fresh queue_capacity context_config) ops = some l)
    (hout : ∃ s ∈ l.sessions, s.m_session_id = session_id) :
    ∃ l', l.step (LifecycleOp.release session_id) = some l' ∧
      l'.sessions.length + 1 = l.sessions.length ∧
      (l'.sessions = [] →
        l'.singleton.context.m_thread_pool = [] ∧ l'.singleton.m_anira_context = false) ∧
      (l'.sessions ≠ [] →
        l'.singleton.context.m_thread_pool = l.singleton.context.m_thread_pool ∧
        l'.singleton.m_anira_context = l.singleton.m_anira_context) := by
  have h := Lifecycle.run_consistent ops _ l
    (Lifecycle.fresh_consistent queue_capacity context_config) hrun
  cases hfind : l.sessions.find? (fun s => s.m_session_id == session_id) with
  | none =>
    obtain ⟨s, hs, hid⟩ := hout
    have := List.find?_eq_none.mp hfind s hs
    simp [hid] at this
  | some session =>
    have hmem : session ∈ l.sessions := List.mem_of_find?_eq_some hfind
    have hlen : (l.sessions.erase session).length = l.sessions.length - 1 :=
      List.length_erase_of_mem hmem
    have hpos : 0 < l.sessions.length := List.length_pos_of_mem hmem
    have h1 := h.1
    simp only [Lifecycle.step, hfind, release_session_eq _ _ (h.2 session hmem),
      Option.map_some']
    refine ⟨_, rfl, by simp only [hlen]; omega, ?_, ?_⟩
    · intro hnil
      have h0 : l.singleton.context.m_active_sessions - 1 = 0 := by
        have : (l.sessions.erase session).length = 0 := by simpa using hnil
        omega
      simp [h0]
    · intro hne
      have h0 : ¬ (l.singleton.context.m_active_sessions - 1 = 0) := by
        have : (l.sessions.erase session).length ≠ 0 := by simpa using hne
        omega
      simp [h0]

/-- C6 at `three_session_singleton`: releasing session 1 leaves the entries of sessions 2
and 3 in the queue and the ids 2 and 3 in the session list. -/
theorem release_session_clears_queue_witness :
    ((mono_session [] [] [] 0).m_active_inferences = 0 ∧
      three_session_singleton.context.m_sessions.Nodup) ∧
    ∃ r, release_session three_session_singleton (mono_session [] [] [] 0) = some r ∧
      r.1.context.m_next_inference.m_items = [⟨2, 0⟩, ⟨3, 4⟩] ∧
      r.1.context.m_sessions = [2, 3] := by
  refine ⟨by decide, ?_⟩
  obtain ⟨r, h1, -, h3, -, h5⟩ := release_session_clears_queue three_session_singleton
    (mono_session [] [] [] 0) (by decide) (by decide)
  refine ⟨r, h1, ?_, ?_⟩
  · rw [h3 (by decide)]
    decide
  · rw [h5]
    decide

/-- C7 on a run: two sessions are created and the first is released; the release of the
second, the last one outstanding, empties the pool and resets the static. -/
theorem last_release_tears_down_witness :
    ∃ l, Lifecycle.run (Lifecycle.fresh 4 two_thread_config)
        [LifecycleOp.create (mono_config 2), LifecycleOp.create (mono_config 2),
         LifecycleOp.release 1] = some l ∧
      (∃ s ∈ l.sessions, s.m_session_id = 2) ∧
      l.singleton.context.m_thread_pool.length = 2 ∧ l.singleton.m_anira_context = true ∧
      ∃ l', l.step (LifecycleOp.release 2) = some l' ∧ l'.sessions = [] ∧
        l'.singleton.context.m_thread_pool = [] ∧ l'.singleton.m_anira_context = false := by
  refine ⟨_, rfl, by decide, by decide, by decide, ?_⟩
  obtain ⟨l', h1, h2, h3, -⟩ := last_release_tears_down 4 two_thread_config
    [LifecycleOp.create (mono_config 2), LifecycleOp.create (mono_config 2),
     LifecycleOp.release 1] _ 2 rfl (by decide)
  have hnil : l'.sessions = [] := by
    have hl : l'.sessions.length + 1 = 1 := h2
    exact List.length_eq_zero.mp (by omega)
  exact ⟨l', h1, hnil, h3 hnil⟩

/-! ## Re-entry into the context, host threads -/

theorem new_num_threads_frame (ctx : AniraContext) (n : Int) :
    new_num_threads ctx n = { ctx with m_thread_pool := (new_num_threads ctx n).m_thread_pool } := by
  unfold new_num_threads
  simp only
  split_ifs <;> rfl

/-- C8: with an existing instance, `get_instance` keeps the version, the enabled backends and
the synchronization type of that instance whatever the configuration passed, and the context
it returns is the existing one up to the worker pool, `m_num_threads` and
`m_use_host_threads`. -/
theorem get_instance_keeps_existing (queue_capacity : Nat) (ctx : AniraContext)
    (context_config : AniraContextConfig) :
    (get_instance queue_capacity (some ctx) context_config).m_anira_context.m_context_config.m_anira_version
      = ctx.m_context_config.m_anira_version ∧
    (get_instance queue_capacity (some ctx) context_config).m_anira_context.m_context_config.m_enabled_backends
      = ctx.m_context_config.m_enabled_backends ∧
    (get_instance queue_capacity (some ctx) context_config).m_anira_context.m_context_config.m_synchronization_type
      = ctx.m_context_config.m_synchronization_type ∧
    (get_instance queue_capacity (some ctx) context_config).m_anira_context =
      { ctx with
        m_thread_pool :=
          (get_instance queue_capacity (some ctx) context_config).m_anira_context.m_thread_pool
        m_context_config := { ctx.m_context_config with
          m_num_threads := (get_instance queue_capacity (some ctx)
            context_config).m_anira_context.m_context_config.m_num_threads
          m_use_host_threads := (get_instance queue_capacity (some ctx)
            context_config).m_anira_context.m_context_config.m_use_host_threads } } := by
  have hf := new_num_threads_frame ctx (to_int context_config.m_num_threads)
  simp only [get_instance]
  split_ifs <;> (try rw [hf]) <;> exact ⟨rfl, rfl, rfl, rfl⟩

/-- C9, in host-thread mode. `host_context` has `m_use_host_threads` and
`m_host_threads_active` set and two workers that never ran; the submit succeeds and the host
callback refuses the task. The iteration clears `m_host_threads_active` and calls
`start_thread_pool`, which does nothing while `m_use_host_threads` is set: no worker of the
internal pool is running afterwards. -/
theorem host_failure_leaves_pool_stopped :
    host_context.m_host_threads_active = true ∧
    (pre_process (hop_processor 1 2) host_context.m_next_inference host_session).returned
      = some true ∧
    ∃ ctx1 s1,
      new_data_submitted_body (hop_processor 1 2) host_context host_session
        = Outcome.returned (ctx1, s1) ∧
      s1.m_host_config.submit_task_to_host_thread = some { m_answers := [], m_calls := 1 } ∧
      ctx1.m_host_threads_active = false ∧
      ctx1.m_thread_pool = [{ m_running := false }, { m_running := false }] := by
  refine ⟨rfl, by decide, _, _, rfl, by decide, by decide, by decide⟩

/-! ## The output block of a request -/

theorem channel_pop_sample (r : RingBuffer) (c c' : Nat) :
    (r.pop_sample c).2.channel c' = if c' = c then (r.channel c).tail else r.channel c' := by
  unfold RingBuffer.pop_sample RingBuffer.channel
  split
  · rename_i h
    by_cases hc : c' = c
    · subst hc
      rw [if_pos rfl, h]
      rfl
    · rw [if_neg hc]
  · rename_i x xs h
    by_cases hc : c' = c
    · subst hc
      have hlt : c' < r.m_channels.length := by
        by_contra hge
        rw [List.getD_eq_default _ _ (Nat.le_of_not_lt hge)] at h
        cases h
      rw [if_pos rfl, h]
      simp only [List.getD_eq_getElem?_getD, List.getElem?_set_self hlt]
      rfl
    · rw [if_neg hc]
      simp only [List.getD_eq_getElem?_getD, List.getElem?_set_ne (Ne.symm hc)]

theorem capacity_pop_sample (r : RingBuffer) (c : Nat) :
    (r.pop_sample c).2.m_capacity = r.m_capacity := by
  unfold RingBuffer.pop_sample
  split <;> rfl

theorem channel_pop_iterate (c c' : Nat) : ∀ (n : Nat) (r : RingBuffer),
    ((fun r => (r.pop_sample c).2)^[n] r).channel c'
      = if c' = c then (r.channel c).drop n else r.channel c' := by
  intro n
  induction n with
  | zero => intro r; by_cases hc : c' = c <;> simp [hc]
  | succ n ih =>
    intro r
    rw [Function.iterate_succ_apply, ih, channel_pop_sample, channel_pop_sample]
    by_cases hc : c' = c
    · simp [hc, List.drop_tail]
    · simp [hc]

theorem channel_pop_samples (n c' : Nat) : ∀ (num_channels : Nat) (r : RingBuffer),
    (pop_samples r num_channels n).channel c'
      = if c' < num_channels then (r.channel c').drop n else r.channel c' := by
  intro num_channels
  induction num_channels with
  | zero => intro r; simp [pop_samples]
  | succ k ih =>
    intro r
    have ih' := ih r
    unfold pop_samples at ih' ⊢
    rw [List.range_succ, List.foldl_append]
    simp only [List.foldl_cons, List.foldl_nil]
    rw [channel_pop_iterate, ih']
    by_cases h1 : c' = k
    · subst h1; simp [ih']
    · by_cases h2 : c' < k
      · have : c' < k + 1 := by omega
        simp [h1, h2, this]
      · have : ¬ c' < k + 1 := by omega
        simp [h1, h2, this]


theorem available_eq_channel_length (r : RingBuffer) (c : Nat) :
    r.get_available_samples c = (r.channel c).length := rfl

theorem pop_sample_value (r : RingBuffer) (c : Nat) :
    (r.pop_sample c).1 = (r.channel c).headD 0 := by
  unfold RingBuffer.pop_sample RingBuffer.channel
  split <;> rename_i h <;> rw [h] <;> rfl

theorem pop_block_ring (c : Nat) : ∀ (n : Nat) (r : RingBuffer),
    (pop_block r c n).2 = (fun r => (r.pop_sample c).2)^[n] r := by
  intro n
  induction n with
  | zero => intro r; rfl
  | succ n ih =>
    intro r
    rw [Function.iterate_succ_apply]
    simp only [pop_block]
    exact ih _

theorem pop_block_samples (c : Nat) : ∀ (n : Nat) (r : RingBuffer),
    n ≤ (r.channel c).length → (pop_block r c n).1 = (r.channel c).take n := by
  intro n
  induction n with
  | zero => intro r _; simp [pop_block]
  | succ n ih =>
    intro r h
    simp only [pop_block]
    have htail : (r.pop_sample c).2.channel c = (r.channel c).tail := by
      rw [channel_pop_sample, if_pos rfl]
    rw [ih (r.pop_sample c).2 (by rw [htail, List.length_tail]; omega), htail, pop_sample_value]
    cases hch : r.channel c with
    | nil => rw [hch] at h; simp at h
    | cons x xs => simp

theorem pop_blocks_ring (n : Nat) : ∀ (num_channels : Nat) (r : RingBuffer),
    (pop_blocks r n num_channels).2 = pop_samples r num_channels n := by
  intro num_channels
  induction num_channels with
  | zero => intro r; rfl
  | succ k ih =>
    intro r
    simp only [pop_blocks]
    rw [pop_block_ring, ih]
    simp [pop_samples, List.range_succ, List.foldl_append]

theorem pop_blocks_output (n : Nat) : ∀ (num_channels : Nat) (r : RingBuffer),
    (pop_blocks r n num_channels).1.length = num_channels ∧
    ∀ c, c < num_channels → n ≤ (r.channel c).length →
      (pop_blocks r n num_channels).1[c]? = some ((r.channel c).take n) := by
  intro num_channels
  induction num_channels with
  | zero => intro r; simp [pop_blocks]
  | succ k ih =>
    intro r
    obtain ⟨hl, hc⟩ := ih r
    simp only [pop_blocks]
    refine ⟨by simp [hl], fun c hck hn => ?_⟩
    by_cases h : c < k
    · rw [List.getElem?_append_left (by omega)]
      exact hc c h hn
    · have hk : c = k := by omega
      subst hk
      rw [List.getElem?_append_right (by omega), hl]
      simp only [Nat.sub_self, List.getElem?_cons_zero, Option.some.injEq]
      have hch : (pop_blocks r n c).2.channel c = r.channel c := by
        rw [pop_blocks_ring, channel_pop_samples, if_neg (Nat.lt_irrefl c)]
      rw [pop_block_samples c n _ (by rw [hch]; exact hn), hch]

theorem channel_pop_samples_iterate (num_channels n c : Nat) : ∀ (k : Nat) (r : RingBuffer),
    ((fun r => pop_samples r num_channels n)^[k] r).channel c
      = if c < num_channels then (r.channel c).drop (k * n) else r.channel c := by
  intro k
  induction k with
  | zero => intro r; by_cases h : c < num_channels <;> simp [h]
  | succ k ih =>
    intro r
    rw [Function.iterate_succ_apply, ih, channel_pop_samples]
    by_cases h : c < num_channels
    · simp only [h, if_true, List.drop_drop]
      congr 1
      rw [Nat.succ_mul]
      omega
    · simp [h]

theorem catch_up_eq (num_channels n : Nat) (h64 : 2 * n < 2 ^ 64) :
    ∀ (fuel : Nat) (counter : Int) (ring : RingBuffer),
      ∃ k : Nat, catch_up num_channels n fuel (counter, ring)
          = (counter - k, (fun r => pop_samples r num_channels n)^[k] ring) ∧
        (k ≠ 0 → 0 < counter ∧ 2 * n ≤ ring.get_available_samples 0) ∧
        (n ≤ ring.get_available_samples 0 →
          n ≤ ((fun r => pop_samples r num_channels n)^[k] ring).get_available_samples 0) := by
  intro fuel
  induction fuel with
  | zero => intro counter ring; exact ⟨0, by simp [catch_up], by simp, by simp⟩
  | succ fuel ih =>
    intro counter ring
    simp only [catch_up, Nat.mod_eq_of_lt h64]
    by_cases hc : counter > 0
    · by_cases ha : ring.get_available_samples 0 ≥ 2 * n
      · obtain ⟨k, hk1, -, hk3⟩ := ih (counter - 1) (pop_samples ring num_channels n)
        refine ⟨k + 1, ?_, fun _ => ⟨hc, ha⟩, fun _ => ?_⟩
        · rw [if_pos hc, if_pos ha, hk1, Function.iterate_succ_apply]
          congr 1
          push_cast
          ring
        · rw [Function.iterate_succ_apply]
          apply hk3
          rw [available_eq_channel_length, channel_pop_samples]
          rw [available_eq_channel_length] at ha
          split
          · rw [List.length_drop]
            omega
          · omega
      · exact ⟨0, by simp [hc, ha], by simp, by simp⟩
    · exact ⟨0, by simp [hc], by simp, by simp⟩


theorem wrap_int_of_range (z : Int) (h1 : -2 ^ 31 ≤ z) (h2 : z < 2 ^ 31) : wrap_int z = z := by
  unfold wrap_int
  omega

theorem wrap_int_range (z : Int) : -2 ^ 31 ≤ wrap_int z ∧ wrap_int z < 2 ^ 31 := by
  unfold wrap_int
  omega

/-- On a positive `int` counter `fetch_sub(1)` does not wrap: the catch-up loop, which
decrements only a positive counter, stores `counter - 1`. -/
theorem wrap_int_pred (counter : Int) (h1 : 0 < counter) (h2 : counter < 2 ^ 31) :
    wrap_int (counter - 1) = counter - 1 := by
  unfold wrap_int
  omega

/-- C10, amended: for a block of `num_samples` samples (`2 * num_samples` below `2 ^ 64`).
When channel 0 of the receive ring holds fewer samples, the output block is all zeros, the
ring is untouched and the shortage counter is incremented as an `int`: it grows by exactly 1
from every `int` value below `INT_MAX`, and wraps from `INT_MAX` to `INT_MIN`. When channel 0
holds at least one block, the counter drops by the number `k` of blocks the catch-up loop
discarded, and each output channel that holds `(k + 1) * num_samples` samples yields the
`num_samples` samples that follow the `k` discarded blocks; `k` is 0, so that the output is
the next block of the ring, when the counter is not positive or channel 0 holds fewer than
two blocks. -/
theorem process_output_block (m : InferenceManager) (num_samples : Nat)
    (h64 : 2 * num_samples < 2 ^ 64) :
    (m.m_session.m_receive_buffer.get_available_samples 0 < num_samples →
      process_output m num_samples
        = (List.replicate m.m_inference_config.m_num_audio_channels.Output
            (List.replicate num_samples 0),
           { m with m_inference_counter := wrap_int (m.m_inference_counter + 1) }) ∧
      (-2 ^ 31 ≤ m.m_inference_counter → m.m_inference_counter < 2 ^ 31 - 1 →
        (process_output m num_samples).2.m_inference_counter = m.m_inference_counter + 1) ∧
      (m.m_inference_counter = 2 ^ 31 - 1 →
        (process_output m num_samples).2.m_inference_counter = -2 ^ 31)) ∧
    (num_samples ≤ m.m_session.m_receive_buffer.get_available_samples 0 →
      ∃ k : Nat,
        (process_output m num_samples).2.m_inference_counter = m.m_inference_counter - k ∧
        (m.m_inference_counter ≤ 0 ∨
          m.m_session.m_receive_buffer.get_available_samples 0 < 2 * num_samples → k = 0) ∧
        (process_output m num_samples).1.length = m.m_inference_config.m_num_audio_channels.Output ∧
        ∀ c, c < m.m_inference_config.m_num_audio_channels.Output →
          (k + 1) * num_samples ≤ m.m_session.m_receive_buffer.get_available_samples c →
          (process_output m num_samples).1[c]?
            = some (((m.m_session.m_receive_buffer.channel c).drop (k * num_samples)).take
                num_samples) ∧
          (process_output m num_samples).2.m_session.m_receive_buffer.channel c
            = (m.m_session.m_receive_buffer.channel c).drop ((k + 1) * num_samples)) := by
  obtain ⟨k, hk1, hk2, hk3⟩ := catch_up_eq m.m_inference_config.m_num_audio_channels.Output
    num_samples h64 m.m_inference_counter.toNat m.m_inference_counter
    m.m_session.m_receive_buffer
  constructor
  · intro hlt
    have hk0 : k = 0 := by
      by_contra hk
      have := (hk2 hk).2
      omega
    subst hk0
    simp only [Function.iterate_zero, id_eq, Nat.cast_zero, sub_zero] at hk1
    have hout : process_output m num_samples
        = (List.replicate m.m_inference_config.m_num_audio_channels.Output
            (List.replicate num_samples 0),
           { m with m_inference_counter := wrap_int (m.m_inference_counter + 1) }) := by
      simp only [process_output, hk1, clear_data]
      rw [if_neg (by omega)]
    refine ⟨hout, fun hlo hhi => ?_, fun hmax => ?_⟩
    · rw [hout]
      exact wrap_int_of_range _ (by omega) (by omega)
    · rw [hout, hmax]
      show wrap_int (2 ^ 31 - 1 + 1) = -2 ^ 31
      decide
  · intro hge
    refine ⟨k, ?_, ?_, ?_, ?_⟩
    · simp only [process_output, hk1]
      rw [if_pos (hk3 hge)]
    · intro h
      by_contra hk
      have := hk2 hk
      omega
    · simp only [process_output, hk1]
      rw [if_pos (hk3 hge)]
      exact (pop_blocks_output num_samples _ _).1
    · intro c hc hlen
      rw [available_eq_channel_length] at hlen
      have hch := channel_pop_samples_iterate m.m_inference_config.m_num_audio_channels.Output
        num_samples c k m.m_session.m_receive_buffer
      rw [if_pos hc] at hch
      simp only [process_output, hk1]
      rw [if_pos (hk3 hge)]
      constructor
      · have := (pop_blocks_output num_samples m.m_inference_config.m_num_audio_channels.Output
          ((fun r => pop_samples r m.m_inference_config.m_num_audio_channels.Output
            num_samples)^[k] m.m_session.m_receive_buffer)).2 c hc
          (by
            rw [hch, List.length_drop]
            have : (k + 1) * num_samples = k * num_samples + num_samples := by ring
            omega)
        rw [hch] at this
        exact this
      · show (pop_blocks _ _ _).2.channel c = _
        rw [pop_blocks_ring, channel_pop_samples, if_pos hc, hch, List.drop_drop]
        congr 1
        ring

/-- C10 as stated fails: with shortage counter 1 and the samples `1 2` in the mono receive
ring, a request for a block of one sample yields `2`, not the next sample `1`; the catch-up
loop discarded a block first. -/
theorem process_output_catch_up_skips_block :
    1 ≤ (mono_manager [1, 2] 1).m_session.m_receive_buffer.get_available_samples 0 ∧
    (mono_manager [1, 2] 1).m_inference_config.m_num_audio_channels.Output = 1 ∧
    ((mono_manager [1, 2] 1).m_session.m_receive_buffer.channel 0).take 1 = [1] ∧
    (process_output (mono_manager [1, 2] 1) 1).1 = [[2]] ∧
    (process_output (mono_manager [1, 2] 1) 1).1
      ≠ [((mono_manager [1, 2] 1).m_session.m_receive_buffer.channel 0).take 1] := by
  decide

/-- C10 amended, at a mono ring: one sample for a block of two gives zeros and raises the
counter 3 to 4, and the counter `INT_MAX` to `INT_MIN`; five samples with counter 3 give a
one-channel block and a counter lowered by the catch-up. -/
theorem process_output_block_witness :
    2 * 2 < 2 ^ 64 ∧
    (process_output (mono_manager [1] 3) 2).1 = [[0, 0]] ∧
    (process_output (mono_manager [1] 3) 2).2.m_inference_counter = 4 ∧
    (process_output (mono_manager [1] 2147483647) 2).2.m_inference_counter = -2147483648 ∧
    ∃ k : Nat,
      (process_output (mono_manager [1, 2, 3, 4, 5] 3) 2).2.m_inference_counter = 3 - k ∧
      (process_output (mono_manager [1, 2, 3, 4, 5] 3) 2).1.length = 1 := by
  have h := (process_output_block (mono_manager [1] 3) 2 (by decide)).1 (by decide)
  have hmax := (process_output_block (mono_manager [1] 2147483647) 2 (by decide)).1 (by decide)
  have h2 := process_output_block (mono_manager [1, 2, 3, 4, 5] 3) 2 (by decide)
  obtain ⟨k, hk1, -, hk3, -⟩ := h2.2 (by decide)
  exact ⟨by decide, congrArg Prod.fst h.1, h.2.1 (by decide) (by decide), hmax.2.2 rfl,
    k, hk1, hk3⟩

/-! ## Degradation: the two failing paths in general -/

theorem channel_push_sample (r : RingBuffer) (c c' : Nat) (v : Sample) :
    (r.push_sample c v).channel c'
      = if c' = c ∧ c < r.m_channels.length then
          (r.channel c ++ [v]).drop ((r.channel c ++ [v]).length - r.m_capacity)
        else r.channel c' := by
  unfold RingBuffer.push_sample RingBuffer.channel
  by_cases hc : c' = c
  · subst hc
    by_cases hlt : c' < r.m_channels.length
    · simp only [List.getD_eq_getElem?_getD, List.getElem?_set_self hlt, hlt, and_self, if_true]
      rfl
    · simp only [hlt, and_false, if_false]
      rw [List.set_eq_of_length_le (Nat.le_of_not_lt hlt)]
  · simp only [hc, false_and, if_false]
    simp only [List.getD_eq_getElem?_getD, List.getElem?_set_ne (Ne.symm hc)]

theorem push_sample_frame (r : RingBuffer) (c : Nat) (v : Sample) :
    (r.push_sample c v).m_capacity = r.m_capacity ∧
    (r.push_sample c v).m_channels.length = r.m_channels.length := by
  simp [RingBuffer.push_sample]

theorem channel_push_iterate (c c' : Nat) (v : Sample) : ∀ (n : Nat) (r : RingBuffer),
    (r.channel c).length + n ≤ r.m_capacity →
    ((fun r => r.push_sample c v)^[n] r).m_capacity = r.m_capacity ∧
    ((fun r => r.push_sample c v)^[n] r).m_channels.length = r.m_channels.length ∧
    ((fun r => r.push_sample c v)^[n] r).channel c'
      = if c' = c ∧ c < r.m_channels.length then r.channel c ++ List.replicate n v
        else r.channel c' := by
  intro n
  induction n with
  | zero =>
    intro r _
    by_cases h : c' = c ∧ c < r.m_channels.length
    · simp [h, h.1]
    · simp [h]
  | succ n ih =>
    intro r hroom
    rw [Function.iterate_succ_apply]
    have hf := push_sample_frame r c v
    have hself := channel_push_sample r c c v
    by_cases hlt : c < r.m_channels.length
    · simp only [hlt, and_self, if_true] at hself
      have hnodrop : (r.channel c ++ [v]).length - r.m_capacity = 0 := by
        simp only [List.length_append, List.length_singleton]
        omega
      rw [hnodrop, List.drop_zero] at hself
      obtain ⟨i1, i2, i3⟩ := ih (r.push_sample c v) (by
        rw [hself, hf.1]
        simp only [List.length_append, List.length_singleton]
        omega)
      refine ⟨i1.trans hf.1, i2.trans hf.2, ?_⟩
      rw [i3, hf.2, hself, channel_push_sample]
      by_cases hc : c' = c
      · simp [hc, hlt, List.replicate_succ]
      · simp [hc]
    · simp only [hlt, and_false, if_false] at hself
      obtain ⟨i1, i2, i3⟩ := ih (r.push_sample c v) (by rw [hself, hf.1]; omega)
      refine ⟨i1.trans hf.1, i2.trans hf.2, ?_⟩
      simp only [hf.2, hlt, and_false, if_false] at i3
      rw [i3, channel_push_sample]
      simp [hlt]


theorem channel_push_zeros (n : Nat) : ∀ (num_channels : Nat) (r : RingBuffer),
    (∀ c, c < num_channels → (r.channel c).length + n ≤ r.m_capacity) →
    (push_zeros r num_channels n).m_capacity = r.m_capacity ∧
    (push_zeros r num_channels n).m_channels.length = r.m_channels.length ∧
    ∀ c', (push_zeros r num_channels n).channel c'
      = if c' < num_channels ∧ c' < r.m_channels.length then r.channel c' ++ List.replicate n 0
        else r.channel c' := by
  intro num_channels
  induction num_channels with
  | zero => intro r _; simp [push_zeros]
  | succ k ih =>
    intro r hroom
    obtain ⟨i1, i2, i3⟩ := ih r (fun c hc => hroom c (by omega))
    have hk : (push_zeros r k n).channel k = r.channel k := by
      simpa using i3 k
    have hstep : push_zeros r (k + 1) n
        = (fun r => r.push_sample k 0)^[n] (push_zeros r k n) := by
      simp [push_zeros, List.range_succ, List.foldl_append]
    rw [hstep]
    have hroomk : ((push_zeros r k n).channel k).length + n ≤ (push_zeros r k n).m_capacity := by
      rw [hk, i1]
      exact hroom k (by omega)
    refine ⟨(channel_push_iterate k k 0 n _ hroomk).1.trans i1,
      (channel_push_iterate k k 0 n _ hroomk).2.1.trans i2, fun c' => ?_⟩
    rw [(channel_push_iterate k c' 0 n _ hroomk).2.2, i2, hk, i3]
    by_cases h1 : c' = k
    · subst h1
      by_cases h2 : c' < r.m_channels.length <;> simp [h2]
    · by_cases h2 : c' < k
      · have : c' < k + 1 := by omega
        simp [h1, h2, this]
      · have : ¬ c' < k + 1 := by omega
        simp [h1, h2, this]

/-- The no-free-slot path of C1: when no slot is free, `pre_process` returns false without
touching the session, and the iteration of `new_data_submitted` removes exactly one hop from
each input channel of the send ring and, where the receive ring has room, appends exactly one
hop of zeros to each of its output channels. -/
theorem new_data_submitted_body_no_free_slot (pp : PrePostProcessor) (ctx : AniraContext)
    (session : SessionElement)
    (hnone : ∀ slot ∈ session.m_inference_queue, slot.m_free = false) :
    pre_process pp ctx.m_next_inference session
      = { returned := some false, m_next_inference := ctx.m_next_inference, session := session } ∧
    ∃ s1, new_data_submitted_body pp ctx session = Outcome.returned (ctx, s1) ∧
      (∀ c, c < session.m_inference_config.m_num_audio_channels.Input →
        s1.m_send_buffer.channel c = (session.m_send_buffer.channel c).drop
          (to_size_t (new_samples_needed_for_inference session))) ∧
      ((∀ c, c < session.m_inference_config.m_num_audio_channels.Output →
          (session.m_receive_buffer.channel c).length
            + to_size_t (new_samples_needed_for_inference session)
            ≤ session.m_receive_buffer.m_capacity) →
        ∀ c, c < session.m_inference_config.m_num_audio_channels.Output →
          c < session.m_receive_buffer.m_channels.length →
          s1.m_receive_buffer.channel c = session.m_receive_buffer.channel c
            ++ List.replicate (to_size_t (new_samples_needed_for_inference session)) 0) := by
  have hscan : scan (fun slot => slot.m_free) session.m_inference_queue = none :=
    (scan_eq_none _ _).mpr hnone
  have hpre : pre_process pp ctx.m_next_inference session
      = { returned := some false, m_next_inference := ctx.m_next_inference,
          session := session } := by
    simp [pre_process, hscan]
  refine ⟨hpre, { session with
      m_send_buffer := pop_samples session.m_send_buffer
        session.m_inference_config.m_num_audio_channels.Input
        (to_size_t (new_samples_needed_for_inference session))
      m_receive_buffer := push_zeros session.m_receive_buffer
        session.m_inference_config.m_num_audio_channels.Output
        (to_size_t (new_samples_needed_for_inference session)) }, ?_, ?_, ?_⟩
  · simp only [new_data_submitted_body, hpre]
  · intro c hc
    simp only
    rw [channel_pop_samples, if_pos hc]
  · intro hroom c hc hlen
    simp only
    rw [(channel_push_zeros _ _ _ hroom).2.2 c, if_pos ⟨hc, hlen⟩]

/-- The rejected path of C1 and C2: a slot is free, the pre/post-processor advances the send
ring by one hop, and the dispatch queue is full. `pre_process` returns false with the slot
free again and `m_current_queue` unchanged, but the pending list is the old one with the new
stamp put in front and the oldest stamp dropped, and the iteration of `new_data_submitted`
has removed two hops from each input channel of the send ring. -/
theorem new_data_submitted_body_rejected (pp : PrePostProcessor) (ctx : AniraContext)
    (session : SessionElement) (i : Nat) (slot : ThreadSafeStruct) (input : AudioBufferF)
    (hfree : scan (fun slot => slot.m_free) session.m_inference_queue = some (i, slot))
    (hpp : pp.pre_process session.m_send_buffer slot.m_processed_model_input
        session.m_currentBackend
      = some (pop_samples session.m_send_buffer
          session.m_inference_config.m_num_audio_channels.Input
          (to_size_t (new_samples_needed_for_inference session)), input))
    (hfull : ctx.m_next_inference.m_capacity ≤ ctx.m_next_inference.m_items.length) :
    (pre_process pp ctx.m_next_inference session).returned = some false ∧
    (pre_process pp ctx.m_next_inference session).session.m_time_stamps
      = (session.m_current_queue :: session.m_time_stamps).dropLast ∧
    (pre_process pp ctx.m_next_inference session).session.m_current_queue
      = session.m_current_queue ∧
    ((pre_process pp ctx.m_next_inference session).session.m_inference_queue[i]?).map
      (fun t => t.m_free) = some true ∧
    ∃ s1, new_data_submitted_body pp ctx session = Outcome.returned (ctx, s1) ∧
      ∀ c, c < session.m_inference_config.m_num_audio_channels.Input →
        s1.m_send_buffer.channel c = (session.m_send_buffer.channel c).drop
          (to_size_t (new_samples_needed_for_inference session)
            + to_size_t (new_samples_needed_for_inference session)) := by
  have hi := scan_some _ _ _ _ hfree
  have hq : ¬ ctx.m_next_inference.m_items.length < ctx.m_next_inference.m_capacity := by omega
  have hpre : pre_process pp ctx.m_next_inference session
      = { returned := some false, m_next_inference := ctx.m_next_inference,
          session := { session with
            m_send_buffer := pop_samples session.m_send_buffer
              session.m_inference_config.m_num_audio_channels.Input
              (to_size_t (new_samples_needed_for_inference session))
            m_time_stamps := (session.m_current_queue :: session.m_time_stamps).dropLast
            m_inference_queue := modify_at (fun t => { t with m_free := true }) i
              (modify_at (fun t => { t with m_processed_model_input := input,
                                            m_time_stamp := session.m_current_queue }) i
                (modify_at (fun t => { t with m_free := false }) i
                  session.m_inference_queue)) } } := by
    simp [pre_process, hfree, hpp, ConcurrentQueue.try_enqueue, hq]
  refine ⟨by rw [hpre], by rw [hpre], by rw [hpre], ?_,
    { (pre_process pp ctx.m_next_inference session).session with
      m_send_buffer := pop_samples (pre_process pp ctx.m_next_inference session).session.m_send_buffer
        session.m_inference_config.m_num_audio_channels.Input
        (to_size_t (new_samples_needed_for_inference session))
      m_receive_buffer := push_zeros session.m_receive_buffer
        session.m_inference_config.m_num_audio_channels.Output
        (to_size_t (new_samples_needed_for_inference session)) }, ?_, ?_⟩
  · rw [hpre]
    simp [modify_at_getElem?, hi.1]
  · simp only [new_data_submitted_body, hpre]
  · intro c hc
    rw [hpre]
    simp only
    rw [channel_pop_samples, if_pos hc, channel_pop_samples, if_pos hc, List.drop_drop]

/-! ## Host threads: fallback and retry -/

theorem pre_process_host_config (pp : PrePostProcessor) (q : ConcurrentQueue)
    (s : SessionElement) :
    (pre_process pp q s).session.m_host_config = s.m_host_config ∧
    (pre_process pp q s).session.m_inference_config = s.m_inference_config := by
  unfold pre_process
  split
  · exact ⟨rfl, rfl⟩
  · split
    · exact ⟨rfl, rfl⟩
    · simp only [ConcurrentQueue.try_enqueue]
      split <;> exact ⟨rfl, rfl⟩

/-- The fallback of C9 is a no-op in host-thread mode: `start_thread_pool` changes nothing
while `m_use_host_threads` is set. -/
theorem start_thread_pool_host_mode (ctx : AniraContext)
    (h : ctx.m_context_config.m_use_host_threads = true) : start_thread_pool ctx = ctx := by
  simp [start_thread_pool, h]

/-- The no-retry part of C9 for one iteration: once `m_host_threads_active` is false, an
iteration of `new_data_submitted` does not invoke the host callback and leaves the flag
false. -/
theorem new_data_submitted_body_host_inactive (pp : PrePostProcessor) (ctx ctx1 : AniraContext)
    (session s1 : SessionElement) (h : ctx.m_host_threads_active = false)
    (hbody : new_data_submitted_body pp ctx session = Outcome.returned (ctx1, s1)) :
    ctx1.m_host_threads_active = false ∧ s1.m_host_config = session.m_host_config := by
  have hc := (pre_process_host_config pp ctx.m_next_inference session).1
  unfold new_data_submitted_body at hbody
  simp only [h] at hbody
  split at hbody
  · cases hbody
  · split at hbody
    · simp only [Bool.false_eq_true, if_false, Outcome.returned.injEq, Prod.mk.injEq] at hbody
      obtain ⟨rfl, rfl⟩ := hbody
      exact ⟨rfl, hc⟩
    · simp only [Outcome.returned.injEq, Prod.mk.injEq] at hbody
      obtain ⟨rfl, rfl⟩ := hbody
      exact ⟨rfl, hc⟩
  · simp only [Outcome.returned.injEq, Prod.mk.injEq] at hbody
    obtain ⟨rfl, rfl⟩ := hbody
    exact ⟨rfl, hc⟩

/-- The no-retry part of C9 for whole calls: once `m_host_threads_active` is false, a call of
`new_data_submitted` that returns has not invoked the host callback, whatever the number of
iterations, and leaves the flag false for the next call. -/
theorem new_data_submitted_host_inactive (pp : PrePostProcessor) :
    ∀ (fuel : Nat) (ctx ctx1 : AniraContext) (session s1 : SessionElement),
      ctx.m_host_threads_active = false →
      new_data_submitted pp fuel ctx session = Outcome.returned (ctx1, s1) →
      ctx1.m_host_threads_active = false ∧ s1.m_host_config = session.m_host_config := by
  intro fuel
  induction fuel with
  | zero => intro ctx ctx1 session s1 _ h; simp [new_data_submitted] at h
  | succ fuel ih =>
    intro ctx ctx1 session s1 hinactive h
    unfold new_data_submitted at h
    split at h
    · cases hb : new_data_submitted_body pp ctx session with
      | returned st =>
        obtain ⟨ctx2, s2⟩ := st
        simp only [hb] at h
        obtain ⟨h1, h2⟩ := new_data_submitted_body_host_inactive pp ctx ctx2 session s2
          hinactive hb
        obtain ⟨h3, h4⟩ := ih ctx2 ctx1 s2 s1 h1 h
        exact ⟨h3, h4.trans h2⟩
      | threw st => simp [hb] at h
      | out_of_fuel => simp [hb] at h
    · simp only [Outcome.returned.injEq, Prod.mk.injEq] at h
      obtain ⟨rfl, rfl⟩ := h
      exact ⟨hinactive, rfl⟩

/-! ## Catching up in a request -/

theorem catch_up_count (num_channels n : Nat) (h64 : 2 * n < 2 ^ 64) :
    ∀ (fuel : Nat) (counter : Int) (ring : RingBuffer), counter.toNat ≤ fuel →
      ∃ k : Nat, catch_up num_channels n fuel (counter, ring)
          = (counter - k, (fun r => pop_samples r num_channels n)^[k] ring) ∧
        k ≤ counter.toNat ∧
        (∀ j, j < k →
          2 * n ≤ ((fun r => pop_samples r num_channels n)^[j] ring).get_available_samples 0) ∧
        (counter - k ≤ 0 ∨
          ((fun r => pop_samples r num_channels n)^[k] ring).get_available_samples 0 < 2 * n) := by
  intro fuel
  induction fuel with
  | zero =>
    intro counter ring hfuel
    refine ⟨0, by simp [catch_up], by omega, by simp, Or.inl ?_⟩
    have : counter.toNat = 0 := by omega
    simp only [Nat.cast_zero, sub_zero]
    exact Int.toNat_eq_zero.mp this
  | succ fuel ih =>
    intro counter ring hfuel
    simp only [catch_up, Nat.mod_eq_of_lt h64]
    by_cases hc : counter > 0
    · by_cases ha : ring.get_available_samples 0 ≥ 2 * n
      · obtain ⟨k, hk1, hk2, hk3, hk4⟩ := ih (counter - 1) (pop_samples ring num_channels n)
          (by omega)
        refine ⟨k + 1, ?_, by omega, ?_, ?_⟩
        · rw [if_pos hc, if_pos ha, hk1, Function.iterate_succ_apply]
          congr 1
          push_cast
          ring
        · intro j hj
          cases j with
          | zero => exact ha
          | succ j =>
            rw [Function.iterate_succ_apply]
            exact hk3 j (by omega)
        · rw [Function.iterate_succ_apply]
          rcases hk4 with h | h
          · left
            push_cast
            omega
          · right
            exact h
      · exact ⟨0, by simp [hc, ha], by omega, by simp, Or.inr (by simpa using ha)⟩
    · exact ⟨0, by simp [hc], by omega, by simp, Or.inl (by simpa using hc)⟩

theorem process_output_of_catch_up (m : InferenceManager) (n k : Nat) (ring : RingBuffer)
    (hcu : catch_up m.m_inference_config.m_num_audio_channels.Output n
        m.m_inference_counter.toNat (m.m_inference_counter, m.m_session.m_receive_buffer)
      = (m.m_inference_counter - k, ring))
    (hge : n ≤ ring.get_available_samples 0) :
    process_output m n
      = ((pop_blocks ring n m.m_inference_config.m_num_audio_channels.Output).1,
         { m with
           m_inference_counter := m.m_inference_counter - k
           m_session := { m.m_session with
             m_receive_buffer :=
               (pop_blocks ring n m.m_inference_config.m_num_audio_channels.Output).2 } }) := by
  simp only [process_output, hcu]
  rw [if_pos hge]

theorem available_pop_samples_iterate_ge (num_channels n : Nat) (ring : RingBuffer) (k : Nat)
    (h0 : n ≤ ring.get_available_samples 0)
    (hk : ∀ j, j < k →
      2 * n ≤ ((fun r => pop_samples r num_channels n)^[j] ring).get_available_samples 0) :
    n ≤ ((fun r => pop_samples r num_channels n)^[k] ring).get_available_samples 0 := by
  cases k with
  | zero => simpa using h0
  | succ k =>
    have h := hk k (Nat.lt_succ_self k)
    rw [Function.iterate_succ_apply', available_eq_channel_length, channel_pop_samples]
    rw [available_eq_channel_length] at h
    split
    · rw [List.length_drop]
      omega
    · omega

/-- C11, amended: in a realtime request, when channel 0 of the receive ring holds at least two
blocks once `new_data_request` is through, the catch-up is driven by the shortage counter. It
discards `k` blocks from each output channel before the output block is read and lowers the
counter by `k`, with `k` at most the counter (none for a counter that is not positive), at
least one for a positive counter, at most one when channel 0 holds fewer than three blocks,
and it goes on until the counter is used up or fewer than two blocks are left. The output
block is the block that follows the `k` discarded ones. -/
theorem process_request_catch_up (pp : PrePostProcessor) (modelOutputFullSize fuel : Nat)
    (m : InferenceManager) (log : List Nat) (session : SessionElement)
    (hrt : m.nonRealtimeMode = false)
    (hreq : new_data_request pp fuel m.m_session = some (log, session))
    (h64 : 2 * modelOutputFullSize < 2 ^ 64)
    (h2 : 2 * modelOutputFullSize ≤ session.m_receive_buffer.get_available_samples 0) :
    ∃ (output_data : AudioBufferF) (m1 : InferenceManager) (k : Nat),
      process_request pp modelOutputFullSize fuel m = some (output_data, m1) ∧
      m1.m_inference_counter = m.m_inference_counter - k ∧
      k ≤ m.m_inference_counter.toNat ∧
      (0 < m.m_inference_counter → 1 ≤ k) ∧
      (0 < m.m_inference_config.m_num_audio_channels.Output →
        session.m_receive_buffer.get_available_samples 0 < 3 * modelOutputFullSize → k ≤ 1) ∧
      (0 < m.m_inference_config.m_num_audio_channels.Output →
        m.m_inference_counter - k ≤ 0 ∨
        session.m_receive_buffer.get_available_samples 0 < (k + 2) * modelOutputFullSize) ∧
      ∀ c, c < m.m_inference_config.m_num_audio_channels.Output →
        (k + 1) * modelOutputFullSize ≤ session.m_receive_buffer.get_available_samples c →
        output_data[c]? = some (((session.m_receive_buffer.channel c).drop
            (k * modelOutputFullSize)).take modelOutputFullSize) ∧
        m1.m_session.m_receive_buffer.channel c
          = (session.m_receive_buffer.channel c).drop ((k + 1) * modelOutputFullSize) := by
  obtain ⟨k, hk1, hk2, hk3, hk4⟩ := catch_up_count
    m.m_inference_config.m_num_audio_channels.Output modelOutputFullSize h64
    m.m_inference_counter.toNat m.m_inference_counter session.m_receive_buffer (le_refl _)
  have hge := available_pop_samples_iterate_ge m.m_inference_config.m_num_audio_channels.Output
    modelOutputFullSize session.m_receive_buffer k (by omega) hk3
  have hout := process_output_of_catch_up { m with m_session := session } modelOutputFullSize k
    _ hk1 hge
  have hlen0 : ∀ j, 0 < m.m_inference_config.m_num_audio_channels.Output →
      ((fun r => pop_samples r m.m_inference_config.m_num_audio_channels.Output
        modelOutputFullSize)^[j] session.m_receive_buffer).get_available_samples 0
        = session.m_receive_buffer.get_available_samples 0 - j * modelOutputFullSize := by
    intro j hC
    rw [available_eq_channel_length, channel_pop_samples_iterate, if_pos hC, List.length_drop,
      available_eq_channel_length]
  have hpr : process_request pp modelOutputFullSize fuel m
      = some (process_output { m with m_session := session } modelOutputFullSize) := by
    unfold process_request
    rw [if_neg (by rw [hrt]; decide)]
    simp only [hreq]
  refine ⟨_, _, k, hpr.trans (congrArg some hout), rfl, hk2, ?_, ?_, ?_, ?_⟩
  · intro hpos
    by_contra hk
    have hk0 : k = 0 := by omega
    subst hk0
    simp only [Function.iterate_zero, id_eq, Nat.cast_zero, sub_zero] at hk4
    omega
  · intro hC h3
    by_contra hk
    have h1 := hk3 1 (by omega)
    rw [hlen0 1 hC] at h1
    omega
  · intro hC
    rcases hk4 with h | h
    · exact Or.inl h
    · right
      rw [hlen0 k hC] at h
      have : (k + 2) * modelOutputFullSize = k * modelOutputFullSize + 2 * modelOutputFullSize := by
        ring
      omega
  · intro c hc hlen
    rw [available_eq_channel_length] at hlen
    have hch := channel_pop_samples_iterate m.m_inference_config.m_num_audio_channels.Output
      modelOutputFullSize c k session.m_receive_buffer
    rw [if_pos hc] at hch
    constructor
    · have := (pop_blocks_output modelOutputFullSize
        m.m_inference_config.m_num_audio_channels.Output
        ((fun r => pop_samples r m.m_inference_config.m_num_audio_channels.Output
          modelOutputFullSize)^[k] session.m_receive_buffer)).2 c hc
        (by
          rw [hch, List.length_drop]
          have : (k + 1) * modelOutputFullSize = k * modelOutputFullSize + modelOutputFullSize := by
            ring
          omega)
      rw [hch] at this
      exact this
    · show (pop_blocks _ _ _).2.channel c = _
      rw [pop_blocks_ring, channel_pop_samples, if_pos hc, hch, List.drop_drop]
      congr 1
      ring

/-- C11 as stated fails. With shortage counter 0 and four samples (two blocks of two) in the
mono receive ring, the request discards nothing: the output is the first block `1 2`. With
counter 2 and eight samples it discards two blocks, not one: the output is `5 6`. -/
theorem process_request_drops_by_counter :
    (process_request (hop_processor 1 2) 2 5 (mono_manager [1, 2, 3, 4] 0)).map
        (fun r => (r.1, r.2.m_session.m_receive_buffer.m_channels, r.2.m_inference_counter))
      = some ([[1, 2]], [[3, 4]], 0) ∧
    (process_request (hop_processor 1 2) 2 5 (mono_manager [1, 2, 3, 4, 5, 6, 7, 8] 2)).map
        (fun r => (r.1, r.2.m_session.m_receive_buffer.m_channels, r.2.m_inference_counter))
      = some ([[5, 6]], [[7, 8]], 0) := by
  decide

/-- C11 amended, at a mono ring with counter 1 and five samples for blocks of two: the request
discards one block and returns the next, `3 4`. -/
theorem process_request_catch_up_witness :
    ((mono_manager [1, 2, 3, 4, 5] 1).nonRealtimeMode = false ∧
      new_data_request (hop_processor 1 2) 5 (mono_manager [1, 2, 3, 4, 5] 1).m_session
        = some ([], (mono_manager [1, 2, 3, 4, 5] 1).m_session) ∧
      2 * 2 < 2 ^ 64 ∧
      2 * 2 ≤ (mono_manager [1, 2, 3, 4, 5] 1).m_session.m_receive_buffer.get_available_samples 0) ∧
    ∃ (output_data : AudioBufferF) (m1 : InferenceManager),
      process_request (hop_processor 1 2) 2 5 (mono_manager [1, 2, 3, 4, 5] 1)
        = some (output_data, m1) ∧
      m1.m_inference_counter = 0 ∧ output_data[0]? = some [3, 4] := by
  refine ⟨by decide, ?_⟩
  obtain ⟨out, m1, k, h1, h2, h3, h4, h5, -, h7⟩ := process_request_catch_up (hop_processor 1 2)
    2 5 (mono_manager [1, 2, 3, 4, 5] 1) [] (mono_manager [1, 2, 3, 4, 5] 1).m_session
    (by decide) (by decide) (by decide) (by decide)
  have hk : k = 1 := by
    have a := h4 (by decide)
    have b : k ≤ 1 := h3
    omega
  subst hk
  refine ⟨out, m1, h1, ?_, ?_⟩
  · rw [h2]
    decide
  · rw [(h7 0 (by decide) (by decide)).1]
    decide

/-! ## Copying the input block -/

theorem channel_push_list (c c' : Nat) : ∀ (vs : List Sample) (r : RingBuffer),
    (r.channel c).length + vs.length ≤ r.m_capacity →
    (vs.foldl (fun r v => r.push_sample c v) r).m_capacity = r.m_capacity ∧
    (vs.foldl (fun r v => r.push_sample c v) r).m_channels.length = r.m_channels.length ∧
    (vs.foldl (fun r v => r.push_sample c v) r).channel c'
      = if c' = c ∧ c < r.m_channels.length then r.channel c ++ vs else r.channel c' := by
  intro vs
  induction vs with
  | nil =>
    intro r _
    by_cases h : c' = c ∧ c < r.m_channels.length
    · simp [h, h.1]
    · simp [h]
  | cons v vs ih =>
    intro r hroom
    simp only [List.length_cons] at hroom
    simp only [List.foldl_cons]
    have hf := push_sample_frame r c v
    have hself := channel_push_sample r c c v
    by_cases hlt : c < r.m_channels.length
    · simp only [hlt, and_self, if_true] at hself
      have hnodrop : (r.channel c ++ [v]).length - r.m_capacity = 0 := by
        simp only [List.length_append, List.length_singleton]
        omega
      rw [hnodrop, List.drop_zero] at hself
      obtain ⟨i1, i2, i3⟩ := ih (r.push_sample c v) (by
        rw [hself, hf.1]
        simp only [List.length_append, List.length_singleton]
        omega)
      refine ⟨i1.trans hf.1, i2.trans hf.2, ?_⟩
      rw [i3, hf.2, hself, channel_push_sample]
      by_cases hc : c' = c
      · simp [hc, hlt]
      · simp [hc]
    · simp only [hlt, and_false, if_false] at hself
      obtain ⟨i1, i2, i3⟩ := ih (r.push_sample c v) (by rw [hself, hf.1]; omega)
      refine ⟨i1.trans hf.1, i2.trans hf.2, ?_⟩
      simp only [hf.2, hlt, and_false, if_false] at i3
      rw [i3, channel_push_sample]
      simp [hlt]

theorem process_input_fold (buffer : JuceAudioBuffer) (r : RingBuffer) :
    (List.range buffer.numSamples).foldl
        (fun r sample => (List.range buffer.numChannels).foldl
          (fun r channel => r.push_sample 0 (buffer.getSample channel sample)) r) r
      = (interleaved buffer).foldl (fun r v => r.push_sample 0 v) r := by
  unfold interleaved
  generalize buffer.numSamples = n
  induction n with
  | zero => simp
  | succ n ih =>
    rw [List.range_succ, List.foldl_append, ih, Nat.succ_mul, List.range_add, List.map_append,
      List.foldl_append]
    simp only [List.foldl_cons, List.foldl_nil, List.foldl_map, List.map_map]
    apply List.foldl_ext
    intro r c hc
    have hc' : c < buffer.numChannels := List.mem_range.mp hc
    have h1 : (n * buffer.numChannels + c) % buffer.numChannels = c := by
      rw [Nat.mul_comm, Nat.mul_add_mod, Nat.mod_eq_of_lt hc']
    have h2 : (n * buffer.numChannels + c) / buffer.numChannels = n := by
      rw [Nat.mul_comm, Nat.mul_add_div (by omega), Nat.div_eq_of_lt hc', Nat.add_zero]
    simp only [Function.comp, h1, h2]

/-- C12, amended: in realtime mode `process_input` copies the block into channel 0 of the send
ring, interleaved. With channel 0 present and room for the block, channel 0 has received
exactly the samples of the block, sample by sample and within a sample channel by channel
(position `s * C + c` holds sample `s` of channel `c`), every other channel of the ring is as
before, and `new_data_submitted` then runs on that session. -/
theorem process_input_interleaves (pp : PrePostProcessor)
    (processesNonRealtimeSubmit : InferenceManager → JuceAudioBuffer → InferenceManager)
    (fuel : Nat) (m : InferenceManager) (input_data : JuceAudioBuffer)
    (hrt : m.nonRealtimeMode = false)
    (hch : 0 < m.m_session.m_send_buffer.m_channels.length)
    (hroom : (m.m_session.m_send_buffer.channel 0).length
        + input_data.numSamples * input_data.numChannels ≤ m.m_session.m_send_buffer.m_capacity) :
    (process_input m input_data).m_session.m_send_buffer.channel 0
      = m.m_session.m_send_buffer.channel 0 ++ interleaved input_data ∧
    (interleaved input_data).length = input_data.numSamples * input_data.numChannels ∧
    (∀ sample channel, sample < input_data.numSamples → channel < input_data.numChannels →
      (interleaved input_data)[sample * input_data.numChannels + channel]?
        = some (input_data.getSample channel sample)) ∧
    (∀ c, c ≠ 0 → (process_input m input_data).m_session.m_send_buffer.channel c
      = m.m_session.m_send_buffer.channel c) ∧
    process_input m input_data = { m with m_session := { m.m_session with
      m_send_buffer := (process_input m input_data).m_session.m_send_buffer } } ∧
    process_submit pp processesNonRealtimeSubmit fuel m input_data
      = match new_data_submitted pp fuel m.m_context (process_input m input_data).m_session with
        | Outcome.returned (ctx, session) =>
          Outcome.returned { process_input m input_data with m_context := ctx, m_session := session }
        | Outcome.threw (ctx, session) =>
          Outcome.threw { process_input m input_data with m_context := ctx, m_session := session }
        | Outcome.out_of_fuel => Outcome.out_of_fuel := by
  have hlen : (interleaved input_data).length = input_data.numSamples * input_data.numChannels := by
    simp [interleaved]
  have hpush := fun c => channel_push_list 0 c (interleaved input_data)
    m.m_session.m_send_buffer (by rw [hlen]; exact hroom)
  have hring : (process_input m input_data).m_session.m_send_buffer
      = (interleaved input_data).foldl (fun r v => r.push_sample 0 v)
          m.m_session.m_send_buffer := process_input_fold input_data _
  refine ⟨?_, hlen, ?_, ?_, rfl, ?_⟩
  · rw [hring, (hpush 0).2.2, if_pos ⟨rfl, hch⟩]
  · intro sample channel hs hc
    have hlt : sample * input_data.numChannels + channel
        < input_data.numSamples * input_data.numChannels := by
      calc sample * input_data.numChannels + channel
          < sample * input_data.numChannels + input_data.numChannels := by omega
        _ = (sample + 1) * input_data.numChannels := by ring
        _ ≤ input_data.numSamples * input_data.numChannels :=
          Nat.mul_le_mul_right _ hs
    have h1 : (sample * input_data.numChannels + channel) % input_data.numChannels = channel := by
      rw [Nat.mul_comm, Nat.mul_add_mod, Nat.mod_eq_of_lt hc]
    have h2 : (sample * input_data.numChannels + channel) / input_data.numChannels = sample := by
      rw [Nat.mul_comm, Nat.mul_add_div (by omega), Nat.div_eq_of_lt hc, Nat.add_zero]
    simp only [interleaved, List.getElem?_map, List.getElem?_range hlt, Option.map_some', h1, h2]
  · intro c hc
    rw [hring, (hpush c).2.2, if_neg (by simp [hc])]
  · unfold process_submit
    rw [if_neg (by rw [hrt]; decide)]
    rfl

/-- C12 as stated fails for a block of two channels: `process_input` leaves `1 3 2 4` in
channel 0 of the send ring and nothing in channel 1, where the claim has `1 2` in channel 0
and `3 4` in channel 1. -/
theorem process_input_pushes_to_channel_zero :
    (process_input stereo_manager stereo_block).m_session.m_send_buffer.m_channels
      = [[1, 3, 2, 4], []] ∧
    (process_input stereo_manager stereo_block).m_session.m_send_buffer.channel 0
      ≠ stereo_block.data.getD 0 [] ∧
    (process_input stereo_manager stereo_block).m_session.m_send_buffer.channel 1
      ≠ stereo_block.data.getD 1 [] := by
  decide

/-- C12 amended, at the two-channel block `1 2` / `3 4`: channel 0 of the send ring receives
`1 3 2 4`. -/
theorem process_input_interleaves_witness :
    (stereo_manager.nonRealtimeMode = false ∧
      0 < stereo_manager.m_session.m_send_buffer.m_channels.length ∧
      (stereo_manager.m_session.m_send_buffer.channel 0).length
        + stereo_block.numSamples * stereo_block.numChannels
        ≤ stereo_manager.m_session.m_send_buffer.m_capacity) ∧
    interleaved stereo_block = [1, 3, 2, 4] ∧
    (process_input stereo_manager stereo_block).m_session.m_send_buffer.channel 0
      = stereo_manager.m_session.m_send_buffer.channel 0 ++ interleaved stereo_block :=
  ⟨by decide, by decide,
    (process_input_interleaves (hop_processor 1 2) (fun m _ => m) 5 stereo_manager stereo_block
      (by decide) (by decide) (by decide)).1⟩

/-! ## An invalid backend in pre-processing -/

theorem hybrid_pre_process_invalid_backend
    (pop_samples_from_buffer :
      RingBuffer → AudioBufferF → Nat → Nat → Nat → RingBuffer × AudioBufferF)
    (input : RingBuffer) (output : AudioBufferF) (raw : Nat) :
    HybridNNPrePostProcessor.pre_process pop_samples_from_buffer input output
      (InferenceBackend.OTHER raw) = none := by
  simp [HybridNNPrePostProcessor.pre_process]

theorem hybrid_pre_process_named_backend
    (pop_samples_from_buffer :
      RingBuffer → AudioBufferF → Nat → Nat → Nat → RingBuffer × AudioBufferF)
    (input : RingBuffer) (output : AudioBufferF) (backend : InferenceBackend)
    (h : backend = InferenceBackend.LIBTORCH ∨ backend = InferenceBackend.ONNX ∨
      backend = InferenceBackend.TFLITE ∨ backend = InferenceBackend.NONE) :
    (HybridNNPrePostProcessor.pre_process pop_samples_from_buffer input output backend).isSome
      = true := by
  rcases h with h | h | h | h <;> subst h <;> simp [HybridNNPrePostProcessor.pre_process]

/-- What the throw of C13 leaves behind, for every session with an invalid backend and a free
slot: the exception leaves `pre_process`, and the session is as before except that the slot
the scan found stays claimed (`m_free` false). Without a free slot the pre/post-processor is
not reached and `pre_process` returns false. -/
theorem pre_process_invalid_backend
    (pop_samples_from_buffer :
      RingBuffer → AudioBufferF → Nat → Nat → Nat → RingBuffer × AudioBufferF)
    (post_process : AudioBufferF → RingBuffer → InferenceBackend → RingBuffer)
    (q : ConcurrentQueue) (session : SessionElement) (raw : Nat)
    (hb : session.m_currentBackend = InferenceBackend.OTHER raw) :
    (∀ i slot, scan (fun slot => slot.m_free) session.m_inference_queue = some (i, slot) →
      pre_process (HybridNNPrePostProcessor pop_samples_from_buffer post_process) q session
        = { returned := none, m_next_inference := q,
            session := { session with
              m_inference_queue := modify_at (fun t => { t with m_free := false }) i
                session.m_inference_queue } }) ∧
    (scan (fun slot => slot.m_free) session.m_inference_queue = none →
      pre_process (HybridNNPrePostProcessor pop_samples_from_buffer post_process) q session
        = { returned := some false, m_next_inference := q, session := session }) := by
  constructor
  · intro i slot hscan
    simp [pre_process, hscan, HybridNNPrePostProcessor, hb, hybrid_pre_process_invalid_backend]
  · intro hscan
    simp [pre_process, hscan]

/-- C13, at a session with a free slot. The active backend is none of LIBTORCH, ONNX, TFLITE
and NONE; the HybridNN pre-processing throws and the exception leaves
`AniraContext::pre_process`. The send ring, the pending time stamps and `m_current_queue` are
as before, but the slot that was claimed for the call is left not free. -/
theorem pre_process_invalid_backend_leaks_slot :
    (pre_process idle_hybrid_processor { m_capacity := 4, m_items := [] }
        invalid_backend_session).returned = none ∧
    (pre_process idle_hybrid_processor { m_capacity := 4, m_items := [] }
        invalid_backend_session).session.m_send_buffer = invalid_backend_session.m_send_buffer ∧
    (pre_process idle_hybrid_processor { m_capacity := 4, m_items := [] }
        invalid_backend_session).session.m_time_stamps = invalid_backend_session.m_time_stamps ∧
    (pre_process idle_hybrid_processor { m_capacity := 4, m_items := [] }
        invalid_backend_session).session.m_current_queue
      = invalid_backend_session.m_current_queue ∧
    invalid_backend_session.m_inference_queue.map (fun slot => (slot.m_free, slot.m_done))
      = [(true, false)] ∧
    (pre_process idle_hybrid_processor { m_capacity := 4, m_items := [] }
        invalid_backend_session).session.m_inference_queue.map
        (fun slot => (slot.m_free, slot.m_done))
      = [(false, false)] := by
  decide

/-! ## Time stamps count up -/

theorem pre_process_cases (pp : PrePostProcessor) (q : ConcurrentQueue) (s : SessionElement) :
    (scan (fun slot => slot.m_free) s.m_inference_queue = none ∧
      pre_process pp q s = { returned := some false, m_next_inference := q, session := s }) ∨
    (∃ i slot, scan (fun slot => slot.m_free) s.m_inference_queue = some (i, slot) ∧
      pp.pre_process s.m_send_buffer slot.m_processed_model_input s.m_currentBackend = none ∧
      pre_process pp q s
        = { returned := none, m_next_inference := q, session := after_throw s i }) ∨
    (∃ i slot ring input, scan (fun slot => slot.m_free) s.m_inference_queue = some (i, slot) ∧
      pp.pre_process s.m_send_buffer slot.m_processed_model_input s.m_currentBackend
        = some (ring, input) ∧
      ¬ q.m_items.length < q.m_capacity ∧
      pre_process pp q s
        = { returned := some false, m_next_inference := q,
            session := after_reject s i ring input }) ∨
    (∃ i slot ring input, scan (fun slot => slot.m_free) s.m_inference_queue = some (i, slot) ∧
      pp.pre_process s.m_send_buffer slot.m_processed_model_input s.m_currentBackend
        = some (ring, input) ∧
      q.m_items.length < q.m_capacity ∧
      pre_process pp q s
        = { returned := some true,
            m_next_inference :=
              (q.try_enqueue { m_session := s.m_session_id, m_thread_safe_struct := i }).2,
            session := after_accept s i ring input }) := by
  cases hscan : scan (fun slot => slot.m_free) s.m_inference_queue with
  | none => exact Or.inl ⟨rfl, by simp [pre_process, hscan]⟩
  | some r =>
    obtain ⟨i, slot⟩ := r
    right
    cases hpp : pp.pre_process s.m_send_buffer slot.m_processed_model_input s.m_currentBackend with
    | none => exact Or.inl ⟨i, slot, rfl, hpp, by simp [pre_process, hscan, hpp, after_throw]⟩
    | some r =>
      obtain ⟨ring, input⟩ := r
      right
      by_cases hroom : q.m_items.length < q.m_capacity
      · exact Or.inr ⟨i, slot, ring, input, rfl, hpp, hroom, by
          simp [pre_process, hscan, hpp, ConcurrentQueue.try_enqueue, hroom, after_accept]⟩
      · exact Or.inl ⟨i, slot, ring, input, rfl, hpp, hroom, by
          simp [pre_process, hscan, hpp, ConcurrentQueue.try_enqueue, hroom, after_reject]⟩

theorem wrap_eq (t : Nat) (h : t < 65536) :
    (if t ≥ 65535 then 0 else t + 1) = (t + 1) % 65536 := by
  split <;> omega

theorem pre_process_accepted (pp : PrePostProcessor) (q : ConcurrentQueue) (s : SessionElement)
    (hcq : s.m_current_queue < 65536)
    (h : (pre_process pp q s).returned = some true) :
    ∃ i slot, scan (fun slot => slot.m_free) s.m_inference_queue = some (i, slot) ∧
      ((pre_process pp q s).session.m_inference_queue[i]?).map (fun t => t.m_time_stamp)
        = some s.m_current_queue ∧
      (pre_process pp q s).session.m_time_stamps = s.m_current_queue :: s.m_time_stamps ∧
      (pre_process pp q s).session.m_current_queue = (s.m_current_queue + 1) % 65536 := by
  rcases pre_process_cases pp q s with ⟨-, he⟩ | ⟨i, slot, -, -, he⟩ |
    ⟨i, slot, ring, input, -, -, -, he⟩ | ⟨i, slot, ring, input, hscan, -, -, he⟩
  · rw [he] at h; simp at h
  · rw [he] at h; simp at h
  · rw [he] at h; simp at h
  · have hi := scan_some _ _ _ _ hscan
    refine ⟨i, slot, hscan, ?_, ?_, ?_⟩
    · rw [he]
      simp [after_accept, modify_at_getElem?, hi.1]
    · rw [he]
      rfl
    · rw [he]
      exact wrap_eq _ hcq

theorem pre_process_not_accepted (pp : PrePostProcessor) (q : ConcurrentQueue)
    (s : SessionElement) (h : (pre_process pp q s).returned ≠ some true) :
    (pre_process pp q s).session.m_current_queue = s.m_current_queue := by
  rcases pre_process_cases pp q s with ⟨-, he⟩ | ⟨i, slot, -, -, he⟩ |
    ⟨i, slot, ring, input, -, -, -, he⟩ | ⟨i, slot, ring, input, hscan, -, -, he⟩
  · rw [he]
  · rw [he]; rfl
  · rw [he]; rfl
  · rw [he] at h; simp at h

theorem new_data_request_body_frame (pp : PrePostProcessor) (s : SessionElement) (back : Nat) :
    (new_data_request_body pp s back).2.m_current_queue = s.m_current_queue ∧
    (new_data_request_body pp s back).2.m_send_buffer = s.m_send_buffer ∧
    (new_data_request_body pp s back).2.m_currentBackend = s.m_currentBackend := by
  unfold new_data_request_body
  split
  · exact ⟨rfl, rfl, rfl⟩
  · split <;> exact ⟨rfl, rfl, rfl⟩

theorem new_data_request_frame (pp : PrePostProcessor) :
    ∀ (fuel : Nat) (s s' : SessionElement) (log : List Nat),
      new_data_request pp fuel s = some (log, s') →
      s'.m_current_queue = s.m_current_queue ∧ s'.m_send_buffer = s.m_send_buffer ∧
      s'.m_currentBackend = s.m_currentBackend := by
  intro fuel
  induction fuel with
  | zero => intro s s' log h; simp [new_data_request] at h
  | succ fuel ih =>
    intro s s' log h
    unfold new_data_request at h
    split at h
    · simp at h
      obtain ⟨-, rfl⟩ := h
      exact ⟨rfl, rfl, rfl⟩
    · rename_i back hback
      have hf := new_data_request_body_frame pp s back
      split at h
      · rename_i s1 hb
        rw [hb] at hf
        simp at h
        obtain ⟨log1, hreq, -⟩ := h
        obtain ⟨a, b, c⟩ := ih _ _ _ hreq
        exact ⟨a.trans hf.1, b.trans hf.2.1, c.trans hf.2.2⟩
      · rename_i s1 hb
        rw [hb] at hf
        simp at h
        obtain ⟨-, rfl⟩ := h
        exact hf
      · rename_i s1 hb
        rw [hb] at hf
        obtain ⟨a, b, c⟩ := ih _ _ _ h
        exact ⟨a.trans hf.1, b.trans hf.2.1, c.trans hf.2.2⟩

theorem Trace.step_stamps (pp : PrePostProcessor) (t t' : Trace) (e : Event)
    (hcq : t.session.m_current_queue < 65536) (h : t.step pp e = some t') :
    (t'.submitted = t.submitted ∧ t'.session.m_current_queue = t.session.m_current_queue) ∨
    (t'.submitted = t.submitted ++ [t.session.m_current_queue] ∧
      t'.session.m_current_queue = (t.session.m_current_queue + 1) % 65536) := by
  cases e with
  | submit =>
    simp only [Trace.step, Option.some.injEq] at h
    subst h
    by_cases hr : (pre_process pp t.m_next_inference t.session).returned = some true
    · right
      obtain ⟨i, slot, -, -, -, h4⟩ := pre_process_accepted pp _ _ hcq hr
      exact ⟨by simp [hr], h4⟩
    · left
      exact ⟨by simp [hr], pre_process_not_accepted pp _ _ hr⟩
  | worker_take =>
    simp only [Trace.step, Option.map_eq_some'] at h
    obtain ⟨r, -, rfl⟩ := h
    exact Or.inl ⟨rfl, rfl⟩
  | worker_done slot output =>
    simp only [Trace.step] at h
    split at h
    · split at h
      · cases h
      · simp only [Option.some.injEq] at h
        subst h
        exact Or.inl ⟨rfl, rfl⟩
    · cases h
  | request fuel =>
    simp only [Trace.step, Option.map_eq_some'] at h
    obtain ⟨r, hreq, rfl⟩ := h
    exact Or.inl ⟨rfl, (new_data_request_frame pp fuel _ _ _ hreq).1⟩

theorem Trace.run_stamps (pp : PrePostProcessor) :
    ∀ (events : List Event) (t t' : Trace), t.session.m_current_queue < 65536 →
      Trace.run pp t events = some t' →
      ∃ n : Nat,
        t'.submitted = t.submitted
          ++ (List.range n).map (fun k => (t.session.m_current_queue + k) % 65536) ∧
        t'.session.m_current_queue = (t.session.m_current_queue + n) % 65536 := by
  intro events
  induction events with
  | nil =>
    intro t t' hcq h
    simp only [Trace.run, Option.some.injEq] at h
    subst h
    exact ⟨0, by simp, by simp; omega⟩
  | cons e es ih =>
    intro t t' hcq h
    simp only [Trace.run] at h
    cases hstep : t.step pp e with
    | none => simp [hstep] at h
    | some t1 =>
      simp only [hstep, Option.some_bind] at h
      rcases Trace.step_stamps pp t t1 e hcq hstep with ⟨h1, h2⟩ | ⟨h1, h2⟩
      · obtain ⟨n, hn1, hn2⟩ := ih t1 t' (by rw [h2]; exact hcq) h
        exact ⟨n, by rw [hn1, h1, h2], by rw [hn2, h2]⟩
      · obtain ⟨n, hn1, hn2⟩ := ih t1 t' (by rw [h2]; omega) h
        refine ⟨n + 1, ?_, ?_⟩
        · rw [hn1, h1, h2, List.range_succ_eq_map, List.map_cons, List.map_map,
            List.append_assoc, List.singleton_append]
          congr 2
          · simp only [Nat.add_zero]
            omega
          · apply List.map_congr_left
            intro k _
            simp only [Function.comp]
            omega
        · rw [hn2, h2]
          omega

/-- C14: for a session whose `m_current_queue` is a 16-bit value `t`, a `pre_process` that
returns true has stamped the slot it claimed and the front of the time-stamp list with `t`
and leaves `m_current_queue = (t + 1) mod 65536`; a `pre_process` that does not return true
leaves `m_current_queue` as it was; and over any run of submits, worker steps and requests
the time stamps of the successful submits are `t, t + 1, t + 2, ...` taken mod 65536, the
`k`-th of them (counting from 0) being `(t + k) mod 65536`. -/
theorem time_stamps_count_up (pp : PrePostProcessor) (t : Trace) (q : ConcurrentQueue)
    (events : List Event) (hcq : t.session.m_current_queue < 65536) :
    ((pre_process pp q t.session).returned = some true →
      ∃ i slot, scan (fun slot => slot.m_free) t.session.m_inference_queue = some (i, slot) ∧
        ((pre_process pp q t.session).session.m_inference_queue[i]?).map
            (fun slot => slot.m_time_stamp) = some t.session.m_current_queue ∧
        (pre_process pp q t.session).session.m_time_stamps
          = t.session.m_current_queue :: t.session.m_time_stamps ∧
        (pre_process pp q t.session).session.m_current_queue
          = (t.session.m_current_queue + 1) % 65536) ∧
    ((pre_process pp q t.session).returned ≠ some true →
      (pre_process pp q t.session).session.m_current_queue = t.session.m_current_queue) ∧
    (∀ t', Trace.run pp t events = some t' →
      ∃ n : Nat,
        t'.submitted = t.submitted
          ++ (List.range n).map (fun k => (t.session.m_current_queue + k) % 65536) ∧
        t'.session.m_current_queue = (t.session.m_current_queue + n) % 65536) :=
  ⟨pre_process_accepted pp q t.session hcq, pre_process_not_accepted pp q t.session,
    fun t' h => Trace.run_stamps pp events t t' hcq h⟩

/-- C14 at the wrap: from `m_current_queue = 65535` two accepted submits carry the time stamps
65535 and 0, and `m_current_queue` ends at 1. -/
theorem time_stamps_count_up_witness :
    wrap_trace.session.m_current_queue < 65536 ∧
    ∃ t', Trace.run (hop_processor 1 2) wrap_trace [Event.submit, Event.submit] = some t' ∧
      t'.submitted = [65535, 0] ∧ t'.session.m_current_queue = 1 := by
  refine ⟨by decide, _, rfl, ?_⟩
  obtain ⟨n, h1, h2⟩ := (time_stamps_count_up (hop_processor 1 2) wrap_trace
    wrap_trace.m_next_inference [Event.submit, Event.submit] (by decide)).2.2 _ rfl
  exact ⟨by decide, by decide⟩

/-! ## Re-entry shrinks the pool -/

theorem to_int_small (n : Nat) (h : n < 2 ^ 31) : to_int n = (n : Int) := by
  unfold to_int
  have h1 : n % 2 ^ 32 = n := Nat.mod_eq_of_lt (by omega)
  rw [h1, if_pos h]

theorem dropLast_iterate {α : Type} (k : Nat) : ∀ (l : List α),
    List.dropLast^[k] l = l.take (l.length - k) := by
  induction k with
  | zero => intro l; simp
  | succ k ih =>
    intro l
    rw [Function.iterate_succ_apply, ih, List.dropLast_eq_take, List.take_take,
      List.length_take]
    congr 1
    omega

theorem new_num_threads_shrinks (ctx : AniraContext) (n : Nat)
    (hsize : ctx.m_thread_pool.length < 2 ^ 31) (hn : n < ctx.m_thread_pool.length) :
    new_num_threads ctx (to_int n) = { ctx with m_thread_pool := ctx.m_thread_pool.take n } := by
  unfold new_num_threads
  rw [to_int_small n (by omega), to_int_small _ hsize]
  have h1 : ¬ ((n : Int) > (ctx.m_thread_pool.length : Int)) := by omega
  have h2 : (n : Int) < (ctx.m_thread_pool.length : Int) := by omega
  simp only [h1, h2, if_false, if_true, dropLast_iterate]
  congr 2
  omega

/-- C15: on re-entry into `get_instance` with an existing instance whose pool has as many
workers as its stored `m_num_threads` (fewer than `2 ^ 31`), the pool is the old pool cut at
the back to `config.m_num_threads` workers when that is fewer and is left alone otherwise, so
that pool size and stored `m_num_threads` both end at the minimum of the old pool size and
`config.m_num_threads`; `new_num_threads(n)` with `n` below the pool size keeps exactly the
first `n` workers; and a fresh instance has `m_num_threads` workers. -/
theorem get_instance_shrinks_only (queue_capacity : Nat) (ctx : AniraContext)
    (context_config : AniraContextConfig)
    (hsize : ctx.m_thread_pool.length < 2 ^ 31)
    (hinv : ctx.m_thread_pool.length = ctx.m_context_config.m_num_threads) :
    (get_instance queue_capacity (some ctx) context_config).m_anira_context.m_thread_pool
      = ctx.m_thread_pool.take context_config.m_num_threads ∧
    (get_instance queue_capacity (some ctx) context_config).m_anira_context.m_thread_pool.length
      = min ctx.m_thread_pool.length context_config.m_num_threads ∧
    (get_instance queue_capacity (some ctx)
        context_config).m_anira_context.m_context_config.m_num_threads
      = min ctx.m_thread_pool.length context_config.m_num_threads ∧
    (∀ n : Nat, n < ctx.m_thread_pool.length →
      (new_num_threads ctx (to_int n)).m_thread_pool = ctx.m_thread_pool.take n ∧
      (new_num_threads ctx (to_int n)).m_thread_pool.length = n) ∧
    (get_instance queue_capacity none context_config).m_anira_context.m_thread_pool.length
      = (get_instance queue_capacity none
          context_config).m_anira_context.m_context_config.m_num_threads := by
  have hpool : (get_instance queue_capacity (some ctx) context_config).m_anira_context.m_thread_pool
      = ctx.m_thread_pool.take context_config.m_num_threads ∧
      (get_instance queue_capacity (some ctx)
        context_config).m_anira_context.m_context_config.m_num_threads
      = min ctx.m_thread_pool.length context_config.m_num_threads := by
    by_cases hgt : ctx.m_thread_pool.length > context_config.m_num_threads
    · have hs := new_num_threads_shrinks ctx context_config.m_num_threads hsize hgt
      simp only [get_instance, hgt, if_true, hs]
      refine ⟨by split <;> rfl, ?_⟩
      have : min ctx.m_thread_pool.length context_config.m_num_threads
          = context_config.m_num_threads := by omega
      rw [this]
      split <;> rfl
    · simp only [get_instance, hgt, if_false]
      refine ⟨?_, ?_⟩
      · rw [List.take_of_length_le (by omega)]
        split <;> rfl
      · have : min ctx.m_thread_pool.length context_config.m_num_threads
            = ctx.m_context_config.m_num_threads := by omega
        rw [this]
        split <;> rfl
  refine ⟨hpool.1, ?_, hpool.2, ?_, ?_⟩
  · rw [hpool.1, List.length_take]
    omega
  · intro n hn
    rw [new_num_threads_shrinks ctx n hsize hn]
    exact ⟨rfl, by simp only [List.length_take]; omega⟩
  · simp [get_instance, AniraContext.create]

/-- C15 at a pool of two workers: a request for one thread leaves one worker and stores 1, a
request for five leaves the two workers and stores 2. -/
theorem get_instance_shrinks_only_witness :
    (three_session_singleton.context.m_thread_pool.length < 2 ^ 31 ∧
      three_session_singleton.context.m_thread_pool.length
        = three_session_singleton.context.m_context_config.m_num_threads) ∧
    (get_instance 4 (some three_session_singleton.context)
        { two_thread_config with m_num_threads := 1 }).m_anira_context.m_thread_pool.length = 1 ∧
    (get_instance 4 (some three_session_singleton.context)
        { two_thread_config with m_num_threads := 5 }).m_anira_context.m_thread_pool.length = 2 := by
  refine ⟨by decide, ?_, ?_⟩
  · rw [(get_instance_shrinks_only 4 three_session_singleton.context
      { two_thread_config with m_num_threads := 1 } (by decide) (by decide)).2.1]
    decide
  · rw [(get_instance_shrinks_only 4 three_session_singleton.context
      { two_thread_config with m_num_threads := 5 } (by decide) (by decide)).2.1]
    decide

/-! ## Prepare is idempotent -/

theorem AniraContext.prepare_eq (ctx : AniraContext) (session : SessionElement)
    (new_config : HostAudioConfig) (hwait : session.m_active_inferences = 0) :
    ∃ ctx1, AniraContext.prepare ctx session new_config
      = some (ctx1, prepared_session session new_config) := by
  obtain ⟨cfg, pool, ⟨capacity, items⟩, sessions, next_id, active, host⟩ := ctx
  have hdq := dequeue_all_eq session.m_session_id capacity items [] (items.length + 1)
    (Nat.lt_succ_self _)
  simp only [List.nil_append] at hdq
  simp only [AniraContext.prepare, hwait, ne_eq, not_true_eq_false, if_false, hdq,
    prepared_session]
  exact ⟨_, rfl⟩

theorem prepared_session_idempotent (session : SessionElement) (new_config : HostAudioConfig) :
    prepared_session (prepared_session session new_config) new_config
      = prepared_session session new_config := by
  simp [prepared_session, SessionElement.prepare, SessionElement.clear,
    RingBuffer.initialize_with_positions, RingBuffer.clear_with_positions]

/-- C16: `AniraContext::prepare` on a session with no inference in progress returns, and a
second `prepare` with the same host configuration returns the same session. In that session
the slot pool holds exactly 20 slots, all free and not done, the list of pending time stamps
is empty, both rings have every channel empty and the capacity `sample_rate * 20` (taken mod
`2 ^ 64`, which changes nothing for a rate below `2 ^ 64 / 20`), and `m_initialized` is
true. -/
theorem prepare_idempotent (ctx : AniraContext) (session : SessionElement)
    (new_config : HostAudioConfig) (hwait : session.m_active_inferences = 0) :
    ∃ ctx1 ctx2 s1,
      AniraContext.prepare ctx session new_config = some (ctx1, s1) ∧
      AniraContext.prepare ctx1 s1 new_config = some (ctx2, s1) ∧
      s1.m_inference_queue.length = 20 ∧
      (∀ slot ∈ s1.m_inference_queue, slot.m_free = true ∧ slot.m_done = false) ∧
      s1.m_time_stamps = [] ∧
      (∀ c, s1.m_send_buffer.get_available_samples c = 0) ∧
      (∀ c, s1.m_receive_buffer.get_available_samples c = 0) ∧
      s1.m_send_buffer.m_capacity = new_config.m_host_sample_rate * 20 % 2 ^ 64 ∧
      s1.m_receive_buffer.m_capacity = new_config.m_host_sample_rate * 20 % 2 ^ 64 ∧
      (new_config.m_host_sample_rate * 20 < 2 ^ 64 →
        s1.m_send_buffer.m_capacity = new_config.m_host_sample_rate * 20 ∧
        s1.m_receive_buffer.m_capacity = new_config.m_host_sample_rate * 20) ∧
      s1.m_initialized = true := by
  obtain ⟨ctx1, h1⟩ := AniraContext.prepare_eq ctx session new_config hwait
  obtain ⟨ctx2, h2⟩ := AniraContext.prepare_eq ctx1 (prepared_session session new_config)
    new_config hwait
  rw [prepared_session_idempotent] at h2
  have hempty : ∀ (n c : Nat), ((List.replicate n ([] : List Sample)).getD c []).length = 0 := by
    intro n c
    rw [List.getD_eq_getElem?_getD]
    cases h : (List.replicate n ([] : List Sample))[c]? with
    | none => rfl
    | some x =>
      have := List.mem_replicate.mp (List.mem_iff_getElem?.mpr ⟨c, h⟩)
      simp [this.2]
  refine ⟨ctx1, ctx2, _, h1, h2, ?_, ?_, rfl, ?_, ?_, rfl, rfl, ?_, rfl⟩
  · simp [prepared_session, SessionElement.prepare, SessionElement.clear]
  · intro slot hslot
    simp [prepared_session, SessionElement.prepare, SessionElement.clear] at hslot
    rw [hslot]
    exact ⟨rfl, rfl⟩
  · intro c
    exact hempty _ c
  · intro c
    exact hempty _ c
  · intro hlt
    exact ⟨Nat.mod_eq_of_lt hlt, Nat.mod_eq_of_lt hlt⟩

/-- C16 at a session with one slot and a pending time stamp: one `prepare` and two leave the
same session, with 20 slots and rings of capacity 80. -/
theorem prepare_idempotent_witness :
    (mono_session [1, 2] [fresh_slot] [3] 5).m_active_inferences = 0 ∧
    ∃ ctx1 ctx2 s1,
      AniraContext.prepare (queue_context 4 []) (mono_session [1, 2] [fresh_slot] [3] 5)
        small_host_config = some (ctx1, s1) ∧
      AniraContext.prepare ctx1 s1 small_host_config = some (ctx2, s1) ∧
      s1.m_inference_queue.length = 20 ∧ s1.m_send_buffer.m_capacity = 80 := by
  refine ⟨rfl, ?_⟩
  obtain ⟨ctx1, ctx2, s1, h1, h2, h3, -, -, -, -, h8, -⟩ := prepare_idempotent
    (queue_context 4 []) (mono_session [1, 2] [fresh_slot] [3] 5) small_host_config rfl
  exact ⟨ctx1, ctx2, s1, h1, h2, h3, by rw [h8]; decide⟩

/-! ## Termination of a request and the pending list -/

theorem new_data_request_terminates (pp : PrePostProcessor) :
    ∀ (fuel : Nat) (s : SessionElement), s.m_time_stamps.length < fuel →
      (∀ t ∈ s.m_time_stamps, ∃ slot ∈ s.m_inference_queue, slot.m_time_stamp = t) →
      ∃ log s', new_data_request pp fuel s = some (log, s') ∧
        log.length ≤ s.m_time_stamps.length := by
  intro fuel
  induction fuel with
  | zero => intro s h; omega
  | succ fuel ih =>
    intro s hlen hslots
    rcases hts : s.m_time_stamps.getLast? with _ | back
    · exact ⟨[], s, by simp [new_data_request, hts], by simp⟩
    · obtain ⟨init, hinit⟩ : ∃ init, s.m_time_stamps = init ++ [back] :=
        ⟨_, (List.dropLast_append_getLast? back hts).symm⟩
      have hback : slot_of s back ≠ none := by
        intro hnone
        obtain ⟨slot, hmem, hstamp⟩ := hslots back (by simp [hinit])
        have := (scan_eq_none _ _).mp hnone slot hmem
        simp [hstamp] at this
      rcases hso : slot_of s back with _ | ⟨i, slot⟩
      · exact absurd hso hback
      · cases hd : slot.m_done with
        | false =>
          exact ⟨[], s, by
            simp [new_data_request, hts, new_data_request_body_not_done pp s back i slot hso hd],
            by simp⟩
        | true =>
          have hbody := new_data_request_body_posted pp s back i slot hso hd
          have hs1 : (after_post pp s i slot).m_time_stamps = init := by
            simp [after_post, hinit]
          have hlen1 : (after_post pp s i slot).m_time_stamps.length < fuel := by
            rw [hs1]
            simp [hinit] at hlen
            omega
          obtain ⟨log, s', hreq, hlog⟩ := ih (after_post pp s i slot) hlen1 (by
            rw [hs1]
            intro t ht
            obtain ⟨x, hx, hxt⟩ := hslots t (by simp [hinit, ht])
            obtain ⟨j, hj⟩ := List.mem_iff_getElem?.mp hx
            refine ⟨if j = i then { { x with m_done := false } with m_free := true } else x,
              List.mem_iff_getElem?.mpr ⟨j, ?_⟩, by split <;> exact hxt⟩
            simp only [after_post, modify_at_getElem?, hj]
            by_cases hji : j = i <;> simp [hji])
          refine ⟨back :: log, s', by simp [new_data_request, hts, hbody, hreq], ?_⟩
          rw [hs1] at hlog
          simp [hinit]
          omega

theorem new_data_request_spins (pp : PrePostProcessor) (s : SessionElement) (back : Nat)
    (hback : s.m_time_stamps.getLast? = some back)
    (hnone : ∀ slot ∈ s.m_inference_queue, slot.m_time_stamp ≠ back) :
    ∀ fuel, new_data_request pp fuel s = none := by
  have hscan : scan (fun slot => slot.m_time_stamp == back) s.m_inference_queue = none := by
    rw [scan_eq_none]
    intro slot hslot
    simpa using hnone slot hslot
  intro fuel
  induction fuel with
  | zero => rfl
  | succ fuel ih => simp [new_data_request, hback, new_data_request_body, hscan, ih]

/-- C17, on a run with a rejected submit from a freshly prepared session. Right after the
rejected `pre_process` the pending list is `[1]` while the only slot that is not free carries
time stamp 0, so the list is not the list of the stamps of the claimed slots. At the end of
`spin_run` the pending list is `[2, 1]`, no slot carries time stamp 1, and
`new_data_request` does not return, whatever the fuel: its search loop spins on a time stamp
that no slot carries. -/
theorem new_data_request_spins_after_rejected_submit :
    (∃ t, Trace.run (hop_processor 1 2) spin_trace [Event.submit, Event.submit] = some t ∧
      t.submitted = [0] ∧ t.session.m_time_stamps = [1] ∧
      claimed_time_stamps t.session = [0]) ∧
    ∃ t, Trace.run (hop_processor 1 2) spin_trace spin_run = some t ∧
      t.session.m_time_stamps = [2, 1] ∧
      claimed_time_stamps t.session = [0, 2] ∧
      (∀ slot ∈ t.session.m_inference_queue, slot.m_time_stamp ≠ 1) ∧
      ∀ fuel, new_data_request (hop_processor 1 2) fuel t.session = none := by
  refine ⟨⟨_, rfl, by decide, by decide, by decide⟩, _, rfl, by decide, by decide, ?_, ?_⟩
  · decide
  · exact new_data_request_spins _ _ 1 (by decide) (by decide)

/-! ## Emission order on rejection-free runs -/

theorem new_data_request_body_stamps (pp : PrePostProcessor) (s : SessionElement) (back : Nat) :
    ((new_data_request_body pp s back).1 = RequestStep.posted ∧
      (new_data_request_body pp s back).2.m_time_stamps = s.m_time_stamps.dropLast) ∨
    ((new_data_request_body pp s back).1 ≠ RequestStep.posted ∧
      (new_data_request_body pp s back).2 = s) := by
  unfold new_data_request_body
  split
  · exact Or.inr ⟨by simp, rfl⟩
  · split
    · exact Or.inl ⟨rfl, rfl⟩
    · exact Or.inr ⟨by simp, rfl⟩

theorem new_data_request_log (pp : PrePostProcessor) :
    ∀ (fuel : Nat) (s s' : SessionElement) (log : List Nat),
      new_data_request pp fuel s = some (log, s') →
      log ++ s'.m_time_stamps.reverse = s.m_time_stamps.reverse := by
  intro fuel
  induction fuel with
  | zero => intro s s' log h; simp [new_data_request] at h
  | succ fuel ih =>
    intro s s' log h
    unfold new_data_request at h
    split at h
    · simp at h
      obtain ⟨rfl, rfl⟩ := h
      simp
    · rename_i back hback
      have hsplit : s.m_time_stamps.reverse = back :: s.m_time_stamps.dropLast.reverse := by
        conv_lhs => rw [← List.dropLast_append_getLast? back hback]
        simp
      have hb := new_data_request_body_stamps pp s back
      split at h
      · rename_i s1 hbody
        rw [hbody] at hb
        rcases hb with ⟨-, hts⟩ | ⟨hne, -⟩
        · simp at h
          obtain ⟨log1, hreq, rfl⟩ := h
          have := ih _ _ _ hreq
          simp only at hts
          rw [hts] at this
          rw [hsplit, List.cons_append, this]
        · exact absurd rfl hne
      · rename_i s1 hbody
        rw [hbody] at hb
        rcases hb with ⟨h1, -⟩ | ⟨-, hs⟩
        · cases h1
        · simp at h
          obtain ⟨rfl, rfl⟩ := h
          simp only at hs
          rw [hs]
          simp
      · rename_i s1 hbody
        rw [hbody] at hb
        rcases hb with ⟨h1, -⟩ | ⟨-, hs⟩
        · cases h1
        · simp only at hs
          rw [hs] at h
          exact ih _ _ _ h

theorem Trace.step_order (pp : PrePostProcessor) (t t' : Trace) (e : Event)
    (hrej : e = Event.submit → ¬ t.rejected pp)
    (hinv : t.emitted ++ t.session.m_time_stamps.reverse = t.submitted)
    (h : t.step pp e = some t') :
    t'.emitted ++ t'.session.m_time_stamps.reverse = t'.submitted := by
  cases e with
  | submit =>
    simp only [Trace.step, Option.some.injEq] at h
    subst h
    rcases pre_process_cases pp t.m_next_inference t.session with ⟨-, he⟩ | ⟨i, slot, -, -, he⟩ |
      ⟨i, slot, ring, input, hscan, -, -, he⟩ | ⟨i, slot, ring, input, hscan, -, -, he⟩
    · simp [he, hinv]
    · simp [he, hinv, after_throw]
    · exact absurd ⟨by rw [hscan]; simp, by rw [he]⟩ (hrej rfl)
    · simp [he, after_accept, ← hinv]
  | worker_take =>
    simp only [Trace.step, Option.map_eq_some'] at h
    obtain ⟨r, -, rfl⟩ := h
    exact hinv
  | worker_done slot output =>
    simp only [Trace.step] at h
    split at h
    · split at h
      · cases h
      · simp only [Option.some.injEq] at h
        subst h
        exact hinv
    · cases h
  | request fuel =>
    simp only [Trace.step, Option.map_eq_some'] at h
    obtain ⟨r, hreq, rfl⟩ := h
    have := new_data_request_log pp fuel _ _ _ hreq
    simp only [List.append_assoc, this]
    exact hinv

/-- Without the rejected path the order of C3 holds: on every run in which no submit has its
dispatch entry rejected, starting with nothing pending, submitted or emitted, the time stamps
handed to `post_process` followed by the pending ones, oldest first, are the time stamps of
the successful submits; so the emitted sequence starts the submitted one. -/
theorem emitted_in_submit_order (pp : PrePostProcessor) :
    ∀ (events : List Event) (t t' : Trace), Trace.never_rejected pp t events →
      t.emitted ++ t.session.m_time_stamps.reverse = t.submitted →
      Trace.run pp t events = some t' →
      t'.emitted ++ t'.session.m_time_stamps.reverse = t'.submitted ∧
      t'.emitted <+: t'.submitted := by
  intro events
  induction events with
  | nil =>
    intro t t' _ hinv h
    simp only [Trace.run, Option.some.injEq] at h
    subst h
    exact ⟨hinv, ⟨_, hinv⟩⟩
  | cons e es ih =>
    intro t t' hacc hinv h
    simp only [Trace.run] at h
    cases hstep : t.step pp e with
    | none => simp [hstep] at h
    | some t1 =>
      simp only [hstep, Option.some_bind] at h
      exact ih t1 t' (hacc.2 t1 hstep) (Trace.step_order pp t t1 e hacc.1 hinv hstep) h

/-! ## The shortage counter as an int -/

/-- The shortage counter stays an `int`: from a counter in `[-2 ^ 31, 2 ^ 31)`,
`process_output` leaves a counter in that range, with or without a shortage. -/
theorem process_output_counter_range (m : InferenceManager) (num_samples : Nat)
    (h64 : 2 * num_samples < 2 ^ 64)
    (h1 : -2 ^ 31 ≤ m.m_inference_counter) (h2 : m.m_inference_counter < 2 ^ 31) :
    -2 ^ 31 ≤ (process_output m num_samples).2.m_inference_counter ∧
    (process_output m num_samples).2.m_inference_counter < 2 ^ 31 := by
  obtain ⟨k, hk1, hk2, -, -⟩ := catch_up_count m.m_inference_config.m_num_audio_channels.Output
    num_samples h64 m.m_inference_counter.toNat m.m_inference_counter
    m.m_session.m_receive_buffer (le_refl _)
  simp only [process_output, hk1]
  split
  · show -2 ^ 31 ≤ m.m_inference_counter - (k : Int) ∧ m.m_inference_counter - (k : Int) < 2 ^ 31
    omega
  · exact wrap_int_range _

/-- At the top of the `int` range the shortage counter does not grow: with one sample in the
mono ring and a block of two, the counter `INT_MAX` becomes `INT_MIN`. -/
theorem process_output_counter_wraps :
    (mono_manager [1] 2147483647).m_session.m_receive_buffer.get_available_samples 0 < 2 ∧
    (process_output (mono_manager [1] 2147483647) 2).1 = [[0, 0]] ∧
    (process_output (mono_manager [1] 2147483647) 2).2.m_inference_counter = -2147483648 := by
  decide

end anira
